import Mathlib

/-!
# goatak server: message routing and entity presence

A shallow embedding of `cmd/goatak_server/main.go`: the two `sync.Map`
registries of `App` (`handlers`, `units`), the body of the `EventProcessor`
loop, `route`, the three `SendTo*` dispatchers and the reaper `cleanOldUnits`.

Conventions.
* A `sync.Map` keyed by strings is an association list.  `Range` walks it in
  list order; since every theorem below quantifies over all lists, every
  iteration order is covered.  The list is meant to hold every key once
  (`SyncMap.WF`); theorems that need it say so.
* Pointers stored in a map (`*ClientHandler`, `*model.Unit`, `*model.Contact`)
  are modelled by the value they point to, each map entry owning its own
  object; mutating through the pointer rewrites the entry.
* Wall-clock time is an integer count of nanoseconds.  One loop iteration and
  one reaper tick read the clock once (`now`).
* Log output and the optional per-type log files touch neither registry and
  are left out.
* `model/geo.go` (`DistBea`) is read over the real numbers: `float64` is `ℝ`,
  `math.Sin`, `math.Cos`, `math.Sqrt` are the real functions and `math.Atan2` is
  `Atan2`.  Rounding is modelled in one place only, the float64 addition of the
  bearing correction (`normalizeBearing64`).
* The wire frame is a list of bytes (natural numbers below 256); `uint64`
  arithmetic is arithmetic modulo `2 ^ 64`.  The protobuf serializer is a
  parameter.
-/

namespace Goatak

/-! ## Time -/

/-- An instant (`time.Time`) or a duration (`time.Duration`), in nanoseconds. -/
abbrev Time := Int

/-- Go `time.Second`. -/
def Second : Time := 1000000000

/-- Go `time.Minute`. -/
def Minute : Time := 60 * Second

/-- The package variable `lastSeenOfflineTimeout = time.Minute * 2`. -/
def lastSeenOfflineTimeout : Time := Minute * 2

/-! ## Strings -/

/-- Go `strings.HasPrefix`. -/
def HasPrefix (s pre : String) : Bool := pre.data.isPrefixOf s.data

/-- Go `strings.HasSuffix`. -/
def HasSuffix (s suf : String) : Bool := suf.data.reverse.isPrefixOf s.data.reverse

/-- Go slice `s[:len(s)-n]`.  Only used with the ASCII suffix `"-ping"` cut off,
where dropping `n` bytes and dropping `n` characters agree. -/
def dropLast (s : String) (n : Nat) : String := ⟨s.data.take (s.data.length - n)⟩

/-! ## Messages -/

/-- The protobuf `v1.CotEvent`, with the fields `cot/proto_test.go` spells out
(`Detail` is left to the wrapper `Msg`).  Times are `uint64` milliseconds,
coordinates are `float64` values kept as their 64-bit patterns. -/
structure CotEvent where
  Type_ : String
  Access : String
  Qos : String
  Opex : String
  Uid : String
  SendTime : Nat
  StartTime : Nat
  StaleTime : Nat
  How : String
  Lat : Nat
  Lon : Nat
  Hae : Nat
  Ce : Nat
  Le : Nat
deriving DecidableEq, Repr

/-- The protobuf `v1.TakMessage`; `CotEvent` is a pointer and may be nil. -/
structure TakMessage where
  CotEvent : Option CotEvent
deriving DecidableEq, Repr

/-- Modelled from the spec: the detail node of `v1.Msg` is not under `src/`;
the router only asks it for the explicit destination-callsign list. -/
structure Detail where
  callsignTo : List String
deriving DecidableEq, Repr

/-- Modelled from the spec: `v1.Msg` is not under `src/`.  It is the decoded
message: the event payload, the routing detail, and whether the message is
contact-flavored (what `IsContact()` reports). -/
structure Msg where
  TakMessage : TakMessage
  Detail : Detail
  contact : Bool
deriving DecidableEq, Repr

/-- Getter `Detail.GetCallsignTo()`. -/
def Detail.GetCallsignTo (d : Detail) : List String := d.callsignTo

/-- Getter `Msg.GetType()`: the event type, `""` without an event. -/
def Msg.GetType (m : Msg) : String :=
  match m.TakMessage.CotEvent with
  | some e => e.Type_
  | none => ""

/-- Getter `Msg.GetUid()`: the event uid, `""` without an event. -/
def Msg.GetUid (m : Msg) : String :=
  match m.TakMessage.CotEvent with
  | some e => e.Uid
  | none => ""

/-- Method `Msg.IsContact()`. -/
def Msg.IsContact (m : Msg) : Bool := m.contact

/-! ## Entities -/

/-- Modelled from the spec: `model.Unit` is not under `src/`.  Section 3 of the
spec: uid, stale time, time of the last accepted update and the latest raw
event (type, callsign and position are read off `raw`). -/
structure Unit where
  uid : String
  staleTime : Time
  lastSeen : Time
  raw : TakMessage
deriving DecidableEq, Repr

/-- Modelled from the spec: `model.Contact` is not under `src/`.  A `Unit` with
the two-valued online/offline state. -/
structure Contact where
  uid : String
  staleTime : Time
  lastSeen : Time
  online : Bool
  raw : TakMessage
deriving DecidableEq, Repr

/-- Modelled from the spec: `Unit.IsOld()` is not under `src/`; stale expiry is
`now > staleTime`. -/
def Unit.IsOld (now : Time) (u : Unit) : Bool := decide (u.staleTime < now)

/-- Modelled from the spec: `Contact.IsOld()` is not under `src/`; stale expiry
is `now > staleTime`. -/
def Contact.IsOld (now : Time) (c : Contact) : Bool := decide (c.staleTime < now)

/-- Modelled from the spec: `Contact.IsOnline()` is not under `src/`. -/
def Contact.IsOnline (c : Contact) : Bool := c.online

/-- Modelled from the spec: `Contact.GetLastSeen()` is not under `src/`. -/
def Contact.GetLastSeen (c : Contact) : Time := c.lastSeen

/-- Modelled from the spec: `Contact.SetOffline()` is not under `src/`. -/
def Contact.SetOffline (c : Contact) : Contact := { c with online := false }

/-- Stale time of an event: `StaleTime` milliseconds as an instant. -/
def CotEvent.stale (e : CotEvent) : Time := (e.StaleTime : Int) * 1000000

/-- Modelled from the spec: `Contact.SetLastSeenNow(evt)` is not under `src/`.
Any update or heartbeat sets `lastSeen` to now and the state to online; an
update that carries an event also refreshes the raw payload and the stale time
it supplies.  A nil `evt` (heartbeat) is `none`. -/
def Contact.SetLastSeenNow (now : Time) (evt : Option TakMessage) (c : Contact) : Contact :=
  match evt with
  | none => { c with lastSeen := now, online := true }
  | some tm =>
    { c with
      lastSeen := now
      online := true
      raw := tm
      staleTime := match tm.CotEvent with
        | some e => e.stale
        | none => c.staleTime }

/-- What the `units` map stores: a `*model.Unit` or a `*model.Contact`
(`AddUnit` and `AddContact` are the only writers and refuse nil). -/
inductive Entity where
  | unit (u : Unit)
  | contact (c : Contact)
deriving DecidableEq, Repr

/-- The entity is a `*model.Unit`. -/
def Entity.isUnit : Entity → Bool
  | .unit _ => true
  | .contact _ => false

/-- The entity is a `*model.Contact`. -/
def Entity.isContact : Entity → Bool
  | .unit _ => false
  | .contact _ => true

/-- Stale time of either variant. -/
def Entity.staleTime : Entity → Time
  | .unit u => u.staleTime
  | .contact c => c.staleTime

/-- Stale expiry of either variant (`IsOld()`). -/
def Entity.IsOld (now : Time) : Entity → Bool
  | .unit u => u.IsOld now
  | .contact c => c.IsOld now

/-! ## Client handles -/

/-- Modelled from the spec: `ClientHandler` is not under `src/`.  A handle has
a callsign learned from traffic (possibly empty) and an outbound queue. -/
structure ClientHandler where
  callsign : String
  outbox : List TakMessage
deriving DecidableEq, Repr

/-- Modelled from the spec: `ClientHandler.GetCallsign()` is not under `src/`. -/
def ClientHandler.GetCallsign (h : ClientHandler) : String := h.callsign

/-- Modelled from the spec: `ClientHandler.AddMsg(msg)` is not under `src/`;
delivery to a handle is `enqueue(message)` on its outbound queue. -/
def ClientHandler.AddMsg (h : ClientHandler) (msg : TakMessage) : ClientHandler :=
  { h with outbox := h.outbox ++ [msg] }

/-! ## sync.Map -/

/-- A Go sync.Map with string keys: the entries in the order Range visits
them. -/
abbrev SyncMap (V : Type) := List (String × V)

/-- The keys of a map, in iteration order. -/
def SyncMap.keys {V : Type} (m : SyncMap V) : List String := m.map Prod.fst

/-- Well-formed maps hold every key once. -/
def SyncMap.WF {V : Type} (m : SyncMap V) : Prop := (SyncMap.keys m).Nodup

instance {V : Type} (m : SyncMap V) : Decidable (SyncMap.WF m) :=
  inferInstanceAs (Decidable (SyncMap.keys m).Nodup)

/-- Method sync.Map.Load: the value under a key, if any. -/
def SyncMap.Load {V : Type} : SyncMap V → String → Option V
  | [], _ => none
  | (k, v) :: rest, key => if k = key then some v else SyncMap.Load rest key

/-- Method sync.Map.Store: overwrite the value under the key, or add the key. -/
def SyncMap.Store {V : Type} : SyncMap V → String → V → SyncMap V
  | [], key, v => [(key, v)]
  | (k, x) :: rest, key, v =>
    if k = key then (k, v) :: rest else (k, x) :: SyncMap.Store rest key v

/-- Method sync.Map.Delete: drop the key. -/
def SyncMap.Delete {V : Type} (m : SyncMap V) (key : String) : SyncMap V :=
  m.filter (fun kv => decide (kv.1 ≠ key))

/-- Method sync.Map.Range: call f on the entries one after the other and stop
as soon as f answers false.  The callback sees the key, the value and the
variables it captured (s); it hands back the value as it left it (values are
pointers, the callback may mutate what they point to), the captured variables
and its boolean answer. -/
def SyncMap.Range {V S : Type} (f : String → V → S → V × S × Bool) :
    SyncMap V → S → SyncMap V × S
  | [], s => ([], s)
  | (k, v) :: rest, s =>
    match f k v s with
    | (v1, s1, true) =>
      let r := SyncMap.Range f rest s1
      ((k, v1) :: r.1, r.2)
    | (v1, s1, false) => ((k, v1) :: rest, s1)

/-! ## The application state and its collaborators -/

/-- The two registries of App: handlers and units. -/
structure App where
  handlers : SyncMap ClientHandler
  units : SyncMap Entity
deriving DecidableEq, Repr

/-- Modelled from the spec: cot.MakePong, model.UnitFromEvent and
model.ContactFromEvent are not under src/; they are taken as parameters.  Each
may read the clock; the two builders may answer nil. -/
structure Ext where
  MakePong : Time → TakMessage
  UnitFromEvent : Time → TakMessage → Option Unit
  ContactFromEvent : Time → TakMessage → Option Contact

/-- Method App.AddUnit: a nil unit is ignored. -/
def App.AddUnit (app : App) (uid : String) (u : Option Unit) : App :=
  match u with
  | none => app
  | some u => { app with units := SyncMap.Store app.units uid (Entity.unit u) }

/-- Method App.GetUnit: nil unless a Unit is stored under uid. -/
def App.GetUnit (app : App) (uid : String) : Option Unit :=
  match SyncMap.Load app.units uid with
  | some (Entity.unit unit) => some unit
  | some (Entity.contact _) => none
  | none => none

/-- Method App.Remove. -/
def App.Remove (app : App) (uid : String) : App :=
  match SyncMap.Load app.units uid with
  | some _ => { app with units := SyncMap.Delete app.units uid }
  | none => app

/-- Method App.AddContact: a nil contact is ignored. -/
def App.AddContact (app : App) (uid : String) (u : Option Contact) : App :=
  match u with
  | none => app
  | some u => { app with units := SyncMap.Store app.units uid (Entity.contact u) }

/-- Method App.GetContact: nil unless a Contact is stored under uid. -/
def App.GetContact (app : App) (uid : String) : Option Contact :=
  match SyncMap.Load app.units uid with
  | some (Entity.contact contact) => some contact
  | some (Entity.unit _) => none
  | none => none

/-- Method App.SendToAllOther: AddMsg on every handle whose key is not author. -/
def App.SendToAllOther (app : App) (msg : TakMessage) (author : String) : App :=
  { app with
    handlers := (SyncMap.Range
      (fun key value (s : PUnit) =>
        if key ≠ author then (value.AddMsg msg, s, true) else (value, s, true))
      app.handlers PUnit.unit).1 }

/-- Method App.SendTo: AddMsg on the handle under uid, if there is one. -/
def App.SendTo (app : App) (uid : String) (msg : TakMessage) : App :=
  match SyncMap.Load app.handlers uid with
  | some h => { app with handlers := SyncMap.Store app.handlers uid (h.AddMsg msg) }
  | none => app

/-- Method App.SendToCallsign: AddMsg on the first handle Range meets whose
callsign is the given one, then stop. -/
def App.SendToCallsign (app : App) (callsign : String) (msg : TakMessage) : App :=
  { app with
    handlers := (SyncMap.Range
      (fun _ h (s : PUnit) =>
        if h.GetCallsign = callsign then (h.AddMsg msg, s, false) else (h, s, true))
      app.handlers PUnit.unit).1 }

/-- Method App.route. -/
def App.route (app : App) (msg : Msg) : App :=
  if msg.Detail.GetCallsignTo.length > 0 then
    msg.Detail.GetCallsignTo.foldl (fun a s => a.SendToCallsign s msg.TakMessage) app
  else
    app.SendToAllOther msg.TakMessage msg.GetUid

/-- The callback cleanOldUnits hands to Range; the captured variable is
toDelete. -/
def cleanVisit (now : Time) (key : String) (value : Entity) (toDelete : List String) :
    Entity × List String × Bool :=
  match value with
  | Entity.unit val =>
    if val.IsOld now then (value, toDelete ++ [key], true) else (value, toDelete, true)
  | Entity.contact val =>
    if val.IsOld now then (value, toDelete ++ [key], true)
    else if val.IsOnline && decide (val.GetLastSeen + lastSeenOfflineTimeout < now) then
      (Entity.contact val.SetOffline, toDelete, true)
    else (value, toDelete, true)

/-- Method App.cleanOldUnits, one reaper tick at time now. -/
def App.cleanOldUnits (app : App) (now : Time) : App :=
  let r := SyncMap.Range (cleanVisit now) app.units []
  { app with units := r.2.foldl (fun m uid => SyncMap.Delete m uid) r.1 }

/-- The uid a ping is about (lines 171-174 of main.go): the sender uid with a
trailing "-ping" cut off. -/
def pingUid (uid : String) : String :=
  if HasSuffix uid "-ping" then dropLast uid 5 else uid

/-- One iteration of the loop of App.EventProcessor, for the message msg taken
from the channel at time now. -/
def App.EventProcessorStep (x : Ext) (now : Time) (app : App) (msg : Msg) : App :=
  match msg.TakMessage.CotEvent with
  | none => app
  | some _ =>
    if msg.GetType = "t-x-c-t" then
      let uid := pingUid msg.GetUid
      let app1 : App :=
        match app.GetContact uid with
        | some c =>
          { app with units := SyncMap.Store app.units uid (Entity.contact (c.SetLastSeenNow now none)) }
        | none => app
      let app2 := app1.SendTo uid (x.MakePong now)
      app2.SendToAllOther msg.TakMessage uid
    else if HasPrefix msg.GetType "a-" then
      let app1 : App :=
        if msg.IsContact then
          match app.GetContact msg.GetUid with
          | some c =>
            { app with
              units := SyncMap.Store app.units msg.GetUid
                (Entity.contact (c.SetLastSeenNow now (some msg.TakMessage))) }
          | none => app.AddContact msg.GetUid (x.ContactFromEvent now msg.TakMessage)
        else app.AddUnit msg.GetUid (x.UnitFromEvent now msg.TakMessage)
      app1.route msg
    else if HasPrefix msg.GetType "b-" then
      (app.AddUnit msg.GetUid (x.UnitFromEvent now msg.TakMessage)).route msg
    else
      app.route msg

/-- Method App.EventProcessor run on the messages the channel delivers, each
with the time at which it is taken. -/
def App.EventProcessor (x : Ext) (app : App) (ch : List (Time × Msg)) : App :=
  ch.foldl (fun a tm => a.EventProcessorStep x tm.1 tm.2) app

/-! ## Closed forms used in the statements -/

/-- What SendToAllOther does to one entry of the handler registry. -/
def broadcastEntry (msg : TakMessage) (author : String) (kh : String × ClientHandler) :
    String × ClientHandler :=
  (kh.1, if kh.1 ≠ author then kh.2.AddMsg msg else kh.2)

/-- What addressed routing to the callsigns dst does to one entry, seen being
the callsigns of the entries Range visits before it: a handle that is not the
first with its callsign gets nothing, the first one gets one copy for each
occurrence of its callsign in dst. -/
def addressedEntry (dst : List String) (msg : TakMessage) (seen : List String)
    (kh : String × ClientHandler) : String × ClientHandler :=
  (kh.1,
   if kh.2.callsign ∈ seen then kh.2
   else { kh.2 with outbox := kh.2.outbox ++ List.replicate (dst.count kh.2.callsign) msg })

/-- Addressed routing in closed form, entry by entry in Range order. -/
def addressedDelivery (dst : List String) (msg : TakMessage) :
    List String → SyncMap ClientHandler → SyncMap ClientHandler
  | _, [] => []
  | seen, kh :: rest =>
    addressedEntry dst msg seen kh :: addressedDelivery dst msg (kh.2.callsign :: seen) rest

/-- Entry after is entry before with n copies of msg enqueued and nothing else
changed. -/
def Enqueued (n : Nat) (msg : TakMessage) (before after : String × ClientHandler) : Prop :=
  after.1 = before.1 ∧ after.2.callsign = before.2.callsign ∧
    after.2.outbox = before.2.outbox ++ List.replicate n msg

/-- What a reaper tick does to an entity it keeps: an online contact whose
lastSeen plus the offline timeout lies before now is set offline. -/
def demote (now : Time) : Entity → Entity
  | Entity.unit u => Entity.unit u
  | Entity.contact c =>
    if c.online && decide (c.lastSeen + lastSeenOfflineTimeout < now) then
      Entity.contact { c with online := false }
    else Entity.contact c

/-- An entry is kept by the reaper: its entity is not stale-expired. -/
def keptEntry (now : Time) (kv : String × Entity) : Bool := !kv.2.IsOld now

/-- The two things that write the entity registry: the event processor taking a
message off the channel, and the cleaner running a reaper tick. -/
inductive Step where
  | process (now : Time) (msg : Msg)
  | tick (now : Time)

/-- Run one step. -/
def App.step (x : Ext) (app : App) : Step → App
  | Step.process now msg => app.EventProcessorStep x now msg
  | Step.tick now => app.cleanOldUnits now

/-- The variant the event processor upserts for a message, read off the switch
of EventProcessor: some true for a Contact (type "a-...", contact-flavored),
some false for a Unit (any other "a-..." and every "b-..."), none when the
registry gets no upsert (no event, ping, any other type). -/
def Msg.variant (m : Msg) : Option Bool :=
  match m.TakMessage.CotEvent with
  | none => none
  | some _ =>
    if m.GetType = "t-x-c-t" then none
    else if HasPrefix m.GetType "a-" then some m.IsContact
    else if HasPrefix m.GetType "b-" then some false
    else none

/-! ## Sample values -/

/-- A sample event with the given type and uid, stale at 9 ms. -/
def sampleEvent (ty uid : String) : CotEvent :=
  ⟨ty, "", "", "", uid, 0, 0, 9, "", 0, 0, 0, 0, 0⟩

/-- A sample message around sampleEvent. -/
def sampleMsg (ty uid : String) (dst : List String) (contact : Bool) : Msg :=
  ⟨⟨some (sampleEvent ty uid)⟩, ⟨dst⟩, contact⟩

/-- Sample collaborators: a fixed pong, and builders that always succeed. -/
def sampleExt : Ext :=
  ⟨fun _ => ⟨some (sampleEvent "t-x-c-t-r" "takPong")⟩,
   fun now tm => some ⟨"unit", 9000000, now, tm⟩,
   fun now tm => some ⟨"contact", 9000000, now, true, tm⟩⟩

/-- Three sample handles, two of them with the callsign "Alpha". -/
def sampleHandlers : SyncMap ClientHandler :=
  [("A", ⟨"Alpha", []⟩), ("B", ⟨"Bravo", []⟩), ("C", ⟨"Alpha", []⟩)]

/-- A sample entity registry, meant for a tick at 200 s: "u1" went stale one
second before, "u2" is fresh; "c1" is online but silent for 190 s, "c2" is
online and was seen 100 s ago, "c3" is offline and fresh, "c4" is online and
stale. -/
def sampleUnits : SyncMap Entity :=
  [("u1", Entity.unit ⟨"u1", 199 * Second, 0, ⟨none⟩⟩),
   ("u2", Entity.unit ⟨"u2", 300 * Second, 0, ⟨none⟩⟩),
   ("c1", Entity.contact ⟨"c1", 300 * Second, 10 * Second, true, ⟨none⟩⟩),
   ("c2", Entity.contact ⟨"c2", 300 * Second, 100 * Second, true, ⟨none⟩⟩),
   ("c3", Entity.contact ⟨"c3", 300 * Second, 10 * Second, false, ⟨none⟩⟩),
   ("c4", Entity.contact ⟨"c4", 100 * Second, 190 * Second, true, ⟨none⟩⟩)]

/-! ## Geo utility (model/geo.go), over the real numbers -/

/-- Go math.Atan2(y, x) over the real numbers, following its definition: the
special cases of a zero x first (Atan2(0, 0) = 0), then atan(y / x) moved by pi
into the right quadrant when x is negative. -/
noncomputable def Atan2 (y x : ℝ) : ℝ :=
  if x = 0 then
    if y = 0 then 0 else if 0 < y then Real.pi / 2 else -(Real.pi / 2)
  else if x < 0 then
    if Real.arctan (y / x) ≤ 0 then Real.arctan (y / x) + Real.pi
    else Real.arctan (y / x) - Real.pi
  else Real.arctan (y / x)

/-- Function model.DistBea of geo.go over the real numbers: float64 is read as
the reals, math.Sin, math.Cos, math.Sqrt as the real functions and math.Atan2
as Atan2.  The result is (dist, bea). -/
noncomputable def DistBea (lat1 lon1 lat2 lon2 : ℝ) : ℝ × ℝ :=
  let toRadian := Real.pi / 180
  let y := Real.sin ((lon2 - lon1) * toRadian) * Real.cos (lat2 * toRadian)
  let x := Real.cos (lat1 * toRadian) * Real.sin (lat2 * toRadian)
    - Real.sin (lat1 * toRadian) * Real.cos (lat2 * toRadian)
      * Real.cos ((lon2 - lon1) * toRadian)
  let bea := Atan2 y x * 180 / Real.pi
  let bea := if bea < 0 then bea + 360 else bea
  let R : ℝ := 6371000
  let deltaF := (lat2 - lat1) * toRadian
  let deltaL := (lon2 - lon1) * toRadian
  let a := Real.sin (deltaF / 2) * Real.sin (deltaF / 2)
    + Real.cos (lat1 * toRadian) * Real.cos (lat2 * toRadian)
      * Real.sin (deltaL / 2) * Real.sin (deltaL / 2)
  let c := 2 * Atan2 (Real.sqrt a) (Real.sqrt (1 - a))
  let dist := R * c
  (dist, bea)

/-- The haversine term a that DistBea takes the square roots of. -/
noncomputable def haversineTerm (lat1 lon1 lat2 lon2 : ℝ) : ℝ :=
  Real.sin ((lat2 - lat1) * (Real.pi / 180) / 2) * Real.sin ((lat2 - lat1) * (Real.pi / 180) / 2)
    + Real.cos (lat1 * (Real.pi / 180)) * Real.cos (lat2 * (Real.pi / 180))
      * Real.sin ((lon2 - lon1) * (Real.pi / 180) / 2)
      * Real.sin ((lon2 - lon1) * (Real.pi / 180) / 2)

/-- The bearing of DistBea before the correction of lines 15-17 (line 13 of
geo.go), over the real numbers. -/
noncomputable def rawBearing (lat1 lon1 lat2 lon2 : ℝ) : ℝ :=
  Atan2
    (Real.sin ((lon2 - lon1) * (Real.pi / 180)) * Real.cos (lat2 * (Real.pi / 180)))
    (Real.cos (lat1 * (Real.pi / 180)) * Real.sin (lat2 * (Real.pi / 180))
      - Real.sin (lat1 * (Real.pi / 180)) * Real.cos (lat2 * (Real.pi / 180))
        * Real.cos ((lon2 - lon1) * (Real.pi / 180)))
    * 180 / Real.pi

/-- The float64 sum a + b when it lies in [256, 512]: there the float64 values
are the multiples of 2^-44 (53-bit significand, exponent 8), and the sum is the
exact sum rounded to the nearest of them.  IEEE breaks ties to even; the tie
rule plays no part where no tie occurs. -/
noncomputable def addFloat64Near360 (a b : ℝ) : ℝ :=
  ((round ((a + b) * 2 ^ 44) : ℤ) : ℝ) / 2 ^ 44

/-- Lines 15-17 of geo.go, if bea < 0 then bea += 360, with the float64
addition. -/
noncomputable def normalizeBearing64 (bea : ℝ) : ℝ :=
  if bea < 0 then addFloat64Near360 bea 360 else bea

/-! ## Wire framing -/

/-- Go binary.MaxVarintLen64. -/
def MaxVarintLen64 : Nat := 10

/-- The loop of PutUvarint on a uint64 value x: a byte with the low 7 bits and
the continuation bit 0x80 while x >= 0x80, then the last byte.  The first
argument bounds the number of continuation bytes. -/
def putUvarintLoop : Nat → Nat → List Nat
  | 0, x => [x % 256]
  | fuel + 1, x =>
    if x ≥ 0x80 then ((x % 256) ||| 0x80) :: putUvarintLoop fuel (x >>> 7)
    else [x % 256]

/-- Modelled from the spec: the varint writer (Go binary.PutUvarint) is not
under src/.  Little-endian base-128, continuation bit in the high bit of each
byte.  The argument is a uint64; a 64-bit value has at most 9 continuation
bytes. -/
def PutUvarint (x : Nat) : List Nat := putUvarintLoop (MaxVarintLen64 - 1) (x % 2 ^ 64)

/-- The loop of Uvarint: i is the index of the byte, x the value so far, s the
shift. -/
def uvarintLoop : Nat → Nat → Nat → List Nat → Nat × Int
  | _, _, _, [] => (0, 0)
  | i, x, s, b :: rest =>
    if i = MaxVarintLen64 then (0, -((i : Int) + 1))
    else if b < 0x80 then
      if i = MaxVarintLen64 - 1 ∧ b > 1 then (0, -((i : Int) + 1))
      else (x ||| ((b <<< s) % 2 ^ 64), (i : Int) + 1)
    else uvarintLoop (i + 1) (x ||| (((b &&& 0x7f) <<< s) % 2 ^ 64)) (s + 7) rest

/-- Modelled from the spec: the varint reader (Go binary.Uvarint, called by
TestUnmarshal) is not under src/.  Answers the value and the number of bytes
read; that number is 0 when the buffer ends early and negative on overflow. -/
def Uvarint (buf : List Nat) : Nat × Int := uvarintLoop 0 0 0 buf

/-- Modelled from the spec: the frame encoder is not under src/.  Marker byte
0xbf, varint-encoded payload length, payload bytes; marshal is the protobuf
serializer (proto.Marshal). -/
def encodeFrame (marshal : TakMessage → List Nat) (evt : TakMessage) : List Nat :=
  0xbf :: (PutUvarint (marshal evt).length ++ marshal evt)

/-- Modelled from the spec: the frame decoder is not under src/; the steps are
those of TestUnmarshal.  Check the marker, read the varint length, take that
many bytes right after the length prefix (a FrameError, here none, when fewer
are there) and deserialize them; unmarshal is proto.Unmarshal. -/
def decodeFrame (unmarshal : List Nat → Option TakMessage) (b : List Nat) :
    Option TakMessage :=
  match b with
  | [] => none
  | marker :: rest =>
    if marker = 0xbf then
      match Uvarint rest with
      | (l, n1) =>
        if n1 ≤ 0 then none
        else if (rest.drop n1.toNat).length < l then none
        else unmarshal ((rest.drop n1.toNat).take l)
    else none

/-! ## Lemmas on sync.Map -/

theorem SyncMap.Range_visit_all {V S : Type} (f : String → V → S → V × S × Bool)
    (g : String → V → V) (hf : ∀ k v s, f k v s = (g k v, s, true))
    (m : SyncMap V) (s : S) :
    SyncMap.Range f m s = (m.map (fun kv => (kv.1, g kv.1 kv.2)), s) := by
  induction m with
  | nil => rfl
  | cons kv rest ih =>
    obtain ⟨k, v⟩ := kv
    simp [SyncMap.Range, hf, ih]

theorem SyncMap.Load_map {V : Type} (g : String → V → V) (m : SyncMap V) (key : String) :
    SyncMap.Load (m.map (fun kv => (kv.1, g kv.1 kv.2))) key
      = (SyncMap.Load m key).map (g key) := by
  induction m with
  | nil => rfl
  | cons kv rest ih =>
    obtain ⟨k, v⟩ := kv
    by_cases h : k = key
    · subst h; simp [SyncMap.Load]
    · simp [SyncMap.Load, h, ih]

/-! ## Lemmas on the dispatchers -/

theorem SendToAllOther_handlers (app : App) (msg : TakMessage) (author : String) :
    (app.SendToAllOther msg author).handlers
      = app.handlers.map (broadcastEntry msg author) := by
  unfold App.SendToAllOther
  simp only
  rw [SyncMap.Range_visit_all _ (fun k h => if k ≠ author then h.AddMsg msg else h)]
  · rfl
  · intro k v s
    by_cases h : k = author <;> simp [h]

theorem SendToAllOther_units (app : App) (msg : TakMessage) (author : String) :
    (app.SendToAllOther msg author).units = app.units := rfl

theorem SendToCallsign_units (app : App) (callsign : String) (msg : TakMessage) :
    (app.SendToCallsign callsign msg).units = app.units := rfl

theorem SendTo_units (app : App) (uid : String) (msg : TakMessage) :
    (app.SendTo uid msg).units = app.units := by
  unfold App.SendTo
  cases SyncMap.Load app.handlers uid <;> rfl

theorem AddUnit_handlers (app : App) (uid : String) (u : Option Unit) :
    (app.AddUnit uid u).handlers = app.handlers := by
  cases u <;> rfl

theorem AddContact_handlers (app : App) (uid : String) (u : Option Contact) :
    (app.AddContact uid u).handlers = app.handlers := by
  cases u <;> rfl

theorem foldl_SendToCallsign_units (msg : TakMessage) (l : List String) (app : App) :
    (l.foldl (fun a s => a.SendToCallsign s msg) app).units = app.units := by
  induction l generalizing app with
  | nil => rfl
  | cons s l ih => simp [List.foldl, ih, SendToCallsign_units]

theorem route_units (app : App) (msg : Msg) : (app.route msg).units = app.units := by
  unfold App.route
  split
  · exact foldl_SendToCallsign_units _ _ _
  · rfl

/-- The handler registry after route depends on the handler registry alone. -/
theorem route_handlers_congr (a b : App) (msg : Msg) (h : a.handlers = b.handlers) :
    (a.route msg).handlers = (b.route msg).handlers := by
  have key : ∀ (l : List String) (a b : App), a.handlers = b.handlers →
      (l.foldl (fun a s => a.SendToCallsign s msg.TakMessage) a).handlers
        = (l.foldl (fun a s => a.SendToCallsign s msg.TakMessage) b).handlers := by
    intro l
    induction l with
    | nil => intro a b h; exact h
    | cons s l ih =>
      intro a b h
      simp only [List.foldl]
      apply ih
      simp [App.SendToCallsign, h]
  unfold App.route
  split
  · exact key _ _ _ h
  · simp [App.SendToAllOther, h]

/-- The handler registry after one loop iteration on a message that has an
event and is not a ping: that of route run on the registry before. -/
theorem step_handlers_of_not_ping (x : Ext) (now : Time) (app : App) (msg : Msg)
    (hev : msg.TakMessage.CotEvent ≠ none) (hty : msg.GetType ≠ "t-x-c-t") :
    (app.EventProcessorStep x now msg).handlers = (app.route msg).handlers := by
  unfold App.EventProcessorStep
  cases hc : msg.TakMessage.CotEvent with
  | none => exact absurd hc hev
  | some e =>
    simp only [hty, if_false]
    split
    · apply route_handlers_congr
      split
      · split
        · rfl
        · exact AddContact_handlers _ _ _
      · exact AddUnit_handlers _ _ _
    · split
      · exact route_handlers_congr _ _ _ (AddUnit_handlers _ _ _)
      · rfl

/-! ## Claims -/

/-- C1. Broadcast routing: processing a message that has an event payload, a
type other than the ping type "t-x-c-t" and an empty destination-callsign list
leaves the registry keys as they are, enqueues exactly one copy of the message
on every registered handle whose key differs from the message uid, and enqueues
nothing on the handle registered under the message uid. -/
theorem C1_broadcast_routing (x : Ext) (now : Time) (app : App) (msg : Msg)
    (hev : msg.TakMessage.CotEvent ≠ none) (hty : msg.GetType ≠ "t-x-c-t")
    (hto : msg.Detail.GetCallsignTo = []) :
    (app.EventProcessorStep x now msg).handlers
        = app.handlers.map (fun kh =>
            (kh.1, if kh.1 ≠ msg.GetUid
                   then { kh.2 with outbox := kh.2.outbox ++ [msg.TakMessage] }
                   else kh.2))
    ∧ ∀ key, SyncMap.Load (app.EventProcessorStep x now msg).handlers key
        = (SyncMap.Load app.handlers key).map (fun h =>
            if key ≠ msg.GetUid
            then { h with outbox := h.outbox ++ [msg.TakMessage] }
            else h) := by
  have h1 : (app.EventProcessorStep x now msg).handlers
      = app.handlers.map (fun kh =>
          (kh.1, (fun k (h : ClientHandler) =>
            if k ≠ msg.GetUid then { h with outbox := h.outbox ++ [msg.TakMessage] } else h)
            kh.1 kh.2)) := by
    rw [step_handlers_of_not_ping x now app msg hev hty]
    unfold App.route
    simp only [hto, List.length_nil, gt_iff_lt, lt_self_iff_false, if_false]
    rw [SendToAllOther_handlers]
    rfl
  refine ⟨h1, fun key => ?_⟩
  rw [h1]
  exact SyncMap.Load_map (fun k (h : ClientHandler) =>
    if k ≠ msg.GetUid then { h with outbox := h.outbox ++ [msg.TakMessage] } else h) _ _

/-- C1 at a concrete registry and message: "A" sends, "B" and "C" receive. -/
theorem C1_broadcast_routing_witness :
    (App.EventProcessorStep sampleExt 7 ⟨sampleHandlers, []⟩
        (sampleMsg "a-f-G" "A" [] false)).handlers
      = [("A", ⟨"Alpha", []⟩),
         ("B", ⟨"Bravo", [⟨some (sampleEvent "a-f-G" "A")⟩]⟩),
         ("C", ⟨"Alpha", [⟨some (sampleEvent "a-f-G" "A")⟩]⟩)] :=
  (C1_broadcast_routing sampleExt 7 ⟨sampleHandlers, []⟩ (sampleMsg "a-f-G" "A" [] false)
    (by decide) (by decide) rfl).1.trans (by decide)

/-! ### Addressed routing -/

theorem SendToCallsign_cons (units : SyncMap Entity) (s : String) (msg : TakMessage)
    (k : String) (v : ClientHandler) (rest : SyncMap ClientHandler) :
    (App.SendToCallsign ⟨(k, v) :: rest, units⟩ s msg).handlers
      = if v.GetCallsign = s then (k, v.AddMsg msg) :: rest
        else (k, v) :: (App.SendToCallsign ⟨rest, units⟩ s msg).handlers := by
  unfold App.SendToCallsign
  by_cases h : v.GetCallsign = s <;> simp [SyncMap.Range, h]

theorem SendToCallsign_handlers_congr (a b : App) (s : String) (msg : TakMessage)
    (h : a.handlers = b.handlers) :
    (a.SendToCallsign s msg).handlers = (b.SendToCallsign s msg).handlers := by
  simp [App.SendToCallsign, h]

theorem SendToCallsign_none (app : App) (s : String) (msg : TakMessage)
    (h : ∀ kh ∈ app.handlers, kh.2.GetCallsign ≠ s) :
    (app.SendToCallsign s msg).handlers = app.handlers := by
  obtain ⟨hs, units⟩ := app
  simp only at h
  induction hs with
  | nil => rfl
  | cons kh rest ih =>
    obtain ⟨k, v⟩ := kh
    have hv : v.GetCallsign ≠ s := h (k, v) (List.mem_cons_self _ _)
    have hr := ih (fun kh hkh => h kh (List.mem_cons_of_mem _ hkh))
    rw [SendToCallsign_cons, if_neg hv, hr]

theorem SendToCallsign_first (app : App) (s : String) (msg : TakMessage)
    (pre post : SyncMap ClientHandler) (k : String) (v : ClientHandler)
    (hsplit : app.handlers = pre ++ (k, v) :: post) (hv : v.GetCallsign = s)
    (hpre : ∀ kh ∈ pre, kh.2.GetCallsign ≠ s) :
    (app.SendToCallsign s msg).handlers = pre ++ (k, v.AddMsg msg) :: post := by
  obtain ⟨hs, units⟩ := app
  simp only at hsplit
  subst hsplit
  induction pre with
  | nil =>
    rw [List.nil_append, SendToCallsign_cons, if_pos hv]
    rfl
  | cons kh rest ih =>
    obtain ⟨k1, v1⟩ := kh
    have h1 : v1.GetCallsign ≠ s := hpre (k1, v1) (List.mem_cons_self _ _)
    have hr := ih (fun kh hkh => hpre kh (List.mem_cons_of_mem _ hkh))
    rw [List.cons_append, SendToCallsign_cons, if_neg h1, hr]
    rfl

theorem addressedDelivery_nil (msg : TakMessage) (seen : List String)
    (hs : SyncMap ClientHandler) : addressedDelivery [] msg seen hs = hs := by
  induction hs generalizing seen with
  | nil => rfl
  | cons kh rest ih =>
    obtain ⟨k, v⟩ := kh
    simp [addressedDelivery, addressedEntry, ih]

theorem addressedDelivery_snoc_seen (dst : List String) (s : String) (msg : TakMessage)
    (seen : List String) (hseen : s ∈ seen) (hs : SyncMap ClientHandler) :
    addressedDelivery (dst ++ [s]) msg seen hs = addressedDelivery dst msg seen hs := by
  induction hs generalizing seen with
  | nil => rfl
  | cons kh rest ih =>
    obtain ⟨k, v⟩ := kh
    simp only [addressedDelivery]
    rw [ih _ (List.mem_cons_of_mem _ hseen)]
    congr 1
    unfold addressedEntry
    by_cases hc : v.callsign ∈ seen
    · simp [hc]
    · have hne : s ≠ v.callsign := fun e => hc (e ▸ hseen)
      simp [hc, List.count_append, List.count_singleton, hne]

theorem SendToCallsign_addressedDelivery (units : SyncMap Entity) (dst : List String)
    (s : String) (msg : TakMessage) (seen : List String) (hseen : s ∉ seen)
    (hs : SyncMap ClientHandler) :
    (App.SendToCallsign ⟨addressedDelivery dst msg seen hs, units⟩ s msg).handlers
      = addressedDelivery (dst ++ [s]) msg seen hs := by
  induction hs generalizing seen with
  | nil => rfl
  | cons kh rest ih =>
    obtain ⟨k, v⟩ := kh
    simp only [addressedDelivery]
    rw [SendToCallsign_cons]
    by_cases hc : v.callsign = s
    · have hvs : v.callsign ∉ seen := hc ▸ hseen
      have hmem : s ∈ v.callsign :: seen := hc ▸ List.mem_cons_self _ _
      rw [addressedDelivery_snoc_seen dst s msg _ hmem]
      simp [addressedEntry, ClientHandler.GetCallsign, ClientHandler.AddMsg,
        hvs, hc, hseen, List.count_append, List.replicate_succ']
    · have hseen1 : s ∉ v.callsign :: seen := by
        simp only [List.mem_cons, not_or]
        exact ⟨fun e => hc e.symm, hseen⟩
      have hcs : (addressedEntry dst msg seen (k, v)).2.GetCallsign ≠ s := by
        unfold addressedEntry ClientHandler.GetCallsign
        by_cases hm : v.callsign ∈ seen <;> simp [hm, hc]
      have hent : addressedEntry (dst ++ [s]) msg seen (k, v)
          = addressedEntry dst msg seen (k, v) := by
        unfold addressedEntry
        have hne : s ≠ v.callsign := fun e => hc e.symm
        by_cases hm : v.callsign ∈ seen <;>
          simp [hm, List.count_append, List.count_singleton, hne]
      rw [if_neg hcs, ih _ hseen1, hent]

theorem foldl_SendToCallsign_handlers (msg : TakMessage) (dst : List String) (app : App) :
    (dst.foldl (fun a s => a.SendToCallsign s msg) app).handlers
      = addressedDelivery dst msg [] app.handlers := by
  induction dst using List.reverseRecOn with
  | nil => simp [addressedDelivery_nil]
  | append_singleton dst s ih =>
    rw [List.foldl_append]
    simp only [List.foldl]
    rw [← SendToCallsign_addressedDelivery app.units dst s msg [] (List.not_mem_nil _)]
    exact SendToCallsign_handlers_congr _ _ _ _ ih

theorem route_addressed_handlers (app : App) (msg : Msg)
    (hne : msg.Detail.GetCallsignTo ≠ []) :
    (app.route msg).handlers
      = addressedDelivery msg.Detail.GetCallsignTo msg.TakMessage [] app.handlers := by
  unfold App.route
  have hlen : msg.Detail.GetCallsignTo.length > 0 := List.length_pos.mpr hne
  simp only [hlen, if_true]
  exact foldl_SendToCallsign_handlers _ _ _

theorem App.eq_of (a b : App) (h1 : a.handlers = b.handlers) (h2 : a.units = b.units) :
    a = b := by
  cases a; cases b; simp_all

theorem exists_first_callsign (hs : SyncMap ClientHandler) (s : String)
    (h : ∃ kh ∈ hs, kh.2.GetCallsign = s) :
    ∃ pre k v post, hs = pre ++ (k, v) :: post ∧ v.GetCallsign = s ∧
      ∀ kh ∈ pre, kh.2.GetCallsign ≠ s := by
  induction hs with
  | nil => obtain ⟨kh, hkh, _⟩ := h; cases hkh
  | cons kv rest ih =>
    obtain ⟨k, v⟩ := kv
    by_cases hv : v.GetCallsign = s
    · exact ⟨[], k, v, rest, rfl, hv, fun _ hm => nomatch hm⟩
    · have hrest : ∃ kh ∈ rest, kh.2.GetCallsign = s := by
        obtain ⟨kh, hkh, hc⟩ := h
        rcases List.mem_cons.mp hkh with e | hm
        · subst e; exact absurd hc hv
        · exact ⟨kh, hm, hc⟩
      obtain ⟨pre, k1, v1, post, hsplit, hv1, hpre⟩ := ih hrest
      refine ⟨(k, v) :: pre, k1, v1, post, by rw [hsplit]; rfl, hv1, ?_⟩
      intro kh hkh
      rcases List.mem_cons.mp hkh with e | hm
      · subst e; exact hv
      · exact hpre kh hm

theorem addressedDelivery_enqueued (dst : List String) (msg : TakMessage) (seen : List String)
    (hs : SyncMap ClientHandler) :
    List.Forall₂ (fun before after =>
        ∃ n, n ≤ dst.count before.2.callsign ∧ Enqueued n msg before after)
      hs (addressedDelivery dst msg seen hs) := by
  induction hs generalizing seen with
  | nil => exact List.Forall₂.nil
  | cons kh rest ih =>
    obtain ⟨k, v⟩ := kh
    refine List.Forall₂.cons ?_ (ih _)
    by_cases hm : v.callsign ∈ seen
    · exact ⟨0, Nat.zero_le _, by simp [Enqueued, addressedEntry, hm]⟩
    · exact ⟨_, le_refl _, by simp [Enqueued, addressedEntry, hm]⟩

theorem Enqueued_zero (msg : TakMessage) (before after : String × ClientHandler)
    (h : Enqueued 0 msg before after) : after = before := by
  obtain ⟨k, c, o⟩ := before
  obtain ⟨k1, c1, o1⟩ := after
  simp_all [Enqueued]

/-- C2. Addressed routing: with a non-empty destination-callsign list, route
handles the entries of the list one after the other (so never SendToAllOther);
an entry no registered handle carries delivers nothing; an entry some handle
carries delivers one copy to the first such handle Range meets and leaves every
other handle alone; hence a handle whose callsign is not in the list receives
nothing and, when no destination resolves, nothing is delivered at all.  All
functions are total: no error is raised.  Processing a non-ping message that
has an event gives the handlers exactly this registry. -/
theorem C2_addressed_routing (app : App) (msg : Msg) (hne : msg.Detail.GetCallsignTo ≠ []) :
    app.route msg
        = msg.Detail.GetCallsignTo.foldl (fun a s => a.SendToCallsign s msg.TakMessage) app
    ∧ (∀ (a : App) (s : String), (∀ kh ∈ a.handlers, kh.2.GetCallsign ≠ s) →
        a.SendToCallsign s msg.TakMessage = a)
    ∧ (∀ (a : App) (s : String), (∃ kh ∈ a.handlers, kh.2.GetCallsign = s) →
        ∃ pre k v post, a.handlers = pre ++ (k, v) :: post ∧ v.GetCallsign = s ∧
          (∀ kh ∈ pre, kh.2.GetCallsign ≠ s) ∧
          a.SendToCallsign s msg.TakMessage
            = { a with handlers :=
                  pre ++ (k, { v with outbox := v.outbox ++ [msg.TakMessage] }) :: post })
    ∧ List.Forall₂ (fun before after =>
          before.2.GetCallsign ∉ msg.Detail.GetCallsignTo → after = before)
        app.handlers (app.route msg).handlers
    ∧ ((∀ s ∈ msg.Detail.GetCallsignTo, ∀ kh ∈ app.handlers, kh.2.GetCallsign ≠ s) →
        app.route msg = app)
    ∧ (∀ (x : Ext) (now : Time), msg.TakMessage.CotEvent ≠ none → msg.GetType ≠ "t-x-c-t" →
        (app.EventProcessorStep x now msg).handlers = (app.route msg).handlers) := by
  have hlen : msg.Detail.GetCallsignTo.length > 0 := List.length_pos.mpr hne
  refine ⟨?_, ?_, ?_, ?_, ?_, ?_⟩
  · unfold App.route
    simp only [hlen, if_true]
  · intro a s h
    exact App.eq_of _ _ (SendToCallsign_none a s _ h) rfl
  · intro a s h
    obtain ⟨pre, k, v, post, hsplit, hv, hpre⟩ := exists_first_callsign a.handlers s h
    refine ⟨pre, k, v, post, hsplit, hv, hpre, ?_⟩
    exact App.eq_of _ _ (SendToCallsign_first a s _ pre post k v hsplit hv hpre) rfl
  · rw [route_addressed_handlers app msg hne]
    refine (addressedDelivery_enqueued _ msg.TakMessage [] app.handlers).imp ?_
    rintro before after ⟨n, hn, henq⟩ hnot
    have h0 : n = 0 := by
      have := List.count_eq_zero_of_not_mem hnot
      unfold ClientHandler.GetCallsign at this
      omega
    subst h0
    exact Enqueued_zero _ _ _ henq
  · intro h
    refine App.eq_of _ _ ?_ (route_units app msg)
    rw [route_addressed_handlers app msg hne]
    have hall : List.Forall₂ (fun before after => after = before) app.handlers
        (addressedDelivery msg.Detail.GetCallsignTo msg.TakMessage [] app.handlers) := by
      have hmem : ∀ kh ∈ app.handlers, kh.2.GetCallsign ∉ msg.Detail.GetCallsignTo :=
        fun kh hkh hin => h _ hin kh hkh rfl
      generalize ([] : List String) = seen
      generalize app.handlers = hs at hmem
      induction hs generalizing seen with
      | nil => exact List.Forall₂.nil
      | cons kh rest ih =>
        refine List.Forall₂.cons ?_ (ih _ (fun kh1 h1 => hmem kh1 (List.mem_cons_of_mem _ h1)))
        have hc := List.count_eq_zero_of_not_mem (hmem kh (List.mem_cons_self _ _))
        unfold ClientHandler.GetCallsign at hc
        simp [addressedEntry, hc]
    exact (List.forall₂_eq_eq_eq ▸ hall.flip : _ = _)
  · intro x now hev hty
    exact step_handlers_of_not_ping x now app msg hev hty

/-- C2 at a concrete registry: "Alpha" resolves to the first of two handles
with that callsign, "Zulu" to nobody, and "Bravo" is not addressed. -/
theorem C2_addressed_routing_witness :
    App.route ⟨sampleHandlers, []⟩ (sampleMsg "a-f-G" "A" ["Zulu", "Alpha"] false)
      = ⟨[("A", ⟨"Alpha", [⟨some (sampleEvent "a-f-G" "A")⟩]⟩), ("B", ⟨"Bravo", []⟩),
          ("C", ⟨"Alpha", []⟩)], []⟩ :=
  (C2_addressed_routing ⟨sampleHandlers, []⟩ (sampleMsg "a-f-G" "A" ["Zulu", "Alpha"] false)
    (by decide)).1.trans (by decide)

/-- C3 as stated fails: a destination list that names "Alpha" twice puts two
copies of the message on the first handle with callsign "Alpha". -/
theorem C3_at_most_once_counterexample :
    ¬ (∀ (app : App) (msg : Msg), msg.Detail.GetCallsignTo ≠ [] →
        List.Forall₂ (fun before after =>
            ∃ n, n ≤ 1 ∧ Enqueued n msg.TakMessage before after)
          app.handlers (app.route msg).handlers) := by
  intro h
  have h1 := h ⟨[("A", ⟨"Alpha", []⟩)], []⟩ (sampleMsg "a-f-G" "B" ["Alpha", "Alpha"] false)
    (by decide)
  have h2 : (App.route ⟨[("A", ⟨"Alpha", []⟩)], []⟩
      (sampleMsg "a-f-G" "B" ["Alpha", "Alpha"] false)).handlers
      = [("A", ⟨"Alpha", [⟨some (sampleEvent "a-f-G" "B")⟩,
          ⟨some (sampleEvent "a-f-G" "B")⟩]⟩)] := by decide
  rw [h2] at h1
  simp only [List.forall₂_cons, List.Forall₂.nil, and_true] at h1
  obtain ⟨n, hn, -, -, hout⟩ := h1
  have hlen := congrArg List.length hout
  simp at hlen
  omega

/-- C3, amended. Addressed routing enqueues on every handle at most as many
copies of the message as the handle callsign occurs in the destination list and
changes nothing else; with a destination list that names no callsign twice,
every handle receives the message at most once. -/
theorem C3_at_most_once_distinct (app : App) (msg : Msg)
    (hne : msg.Detail.GetCallsignTo ≠ []) :
    List.Forall₂ (fun before after =>
        ∃ n, n ≤ msg.Detail.GetCallsignTo.count before.2.GetCallsign ∧
          Enqueued n msg.TakMessage before after)
      app.handlers (app.route msg).handlers
    ∧ (msg.Detail.GetCallsignTo.Nodup →
        List.Forall₂ (fun before after =>
            ∃ n, n ≤ 1 ∧ Enqueued n msg.TakMessage before after)
          app.handlers (app.route msg).handlers) := by
  have hall := addressedDelivery_enqueued msg.Detail.GetCallsignTo msg.TakMessage []
    app.handlers
  rw [← route_addressed_handlers app msg hne] at hall
  refine ⟨hall, fun hnd => hall.imp ?_⟩
  rintro before after ⟨n, hn, henq⟩
  exact ⟨n, le_trans hn (List.nodup_iff_count_le_one.mp hnd _), henq⟩

/-- C3 amended, at a concrete registry: two distinct destinations, each handle
ends with at most one copy. -/
theorem C3_at_most_once_distinct_witness :
    List.Forall₂ (fun before after =>
        ∃ n, n ≤ 1 ∧ Enqueued n ⟨some (sampleEvent "a-f-G" "B")⟩ before after)
      sampleHandlers
      (App.route ⟨sampleHandlers, []⟩
        (sampleMsg "a-f-G" "B" ["Alpha", "Bravo"] false)).handlers :=
  (C3_at_most_once_distinct ⟨sampleHandlers, []⟩
    (sampleMsg "a-f-G" "B" ["Alpha", "Bravo"] false) (by decide)).2 (by decide)

/-! ### Pings -/

theorem HasSuffix_append (a b : String) : HasSuffix (a ++ b) b = true := by
  unfold HasSuffix
  rw [String.data_append, List.reverse_append, List.isPrefixOf_iff_prefix]
  exact List.prefix_append _ _

theorem pingUid_append_ping (X : String) : pingUid (X ++ "-ping") = X := by
  unfold pingUid
  rw [HasSuffix_append, if_pos rfl]
  unfold dropLast
  have hlen : (X ++ "-ping").data.length - 5 = X.data.length := by
    rw [String.data_append, List.length_append]
    show X.data.length + 5 - 5 = X.data.length
    omega
  rw [hlen, String.data_append, List.take_left]

theorem SyncMap.map_of_not_mem_keys {V : Type} (g : V → V) (m : SyncMap V) (key : String)
    (h : key ∉ SyncMap.keys m) :
    m.map (fun kv => (kv.1, if kv.1 = key then g kv.2 else kv.2)) = m := by
  induction m with
  | nil => rfl
  | cons kv rest ih =>
    obtain ⟨k, v⟩ := kv
    simp only [SyncMap.keys, List.map_cons, List.mem_cons, not_or] at h
    have hk : k ≠ key := fun e => h.1 e.symm
    simp only [List.map_cons, hk, if_false]
    rw [ih h.2]

theorem SyncMap.Load_eq_none_iff {V : Type} (m : SyncMap V) (key : String) :
    SyncMap.Load m key = none ↔ key ∉ SyncMap.keys m := by
  induction m with
  | nil => simp [SyncMap.Load, SyncMap.keys]
  | cons kv rest ih =>
    obtain ⟨k, v⟩ := kv
    by_cases hk : k = key
    · subst hk; simp [SyncMap.Load, SyncMap.keys]
    · have hk1 : ¬ key = k := fun e => hk e.symm
      simp only [SyncMap.Load, hk, if_false, ih]
      simp [SyncMap.keys, hk1]

theorem SyncMap.Store_eq_map {V : Type} (g : V → V) (m : SyncMap V) (key : String) (v : V)
    (hwf : SyncMap.WF m) (hload : SyncMap.Load m key = some v) :
    SyncMap.Store m key (g v)
      = m.map (fun kv => (kv.1, if kv.1 = key then g kv.2 else kv.2)) := by
  induction m with
  | nil => simp [SyncMap.Load] at hload
  | cons kv rest ih =>
    obtain ⟨k, w⟩ := kv
    have hnd : k ∉ SyncMap.keys rest ∧ SyncMap.WF rest := by
      simpa [SyncMap.WF, SyncMap.keys] using hwf
    by_cases hk : k = key
    · subst hk
      simp only [SyncMap.Load, if_true, Option.some.injEq] at hload
      subst hload
      simp only [SyncMap.Store, if_true, List.map_cons]
      rw [SyncMap.map_of_not_mem_keys g rest k hnd.1]
    · simp only [SyncMap.Load, hk, if_false] at hload
      simp only [SyncMap.Store, hk, if_false, List.map_cons]
      rw [ih hnd.2 hload]

theorem SendTo_handlers (app : App) (uid : String) (msg : TakMessage)
    (hwf : SyncMap.WF app.handlers) :
    (app.SendTo uid msg).handlers
      = app.handlers.map (fun kh => (kh.1, if kh.1 = uid then kh.2.AddMsg msg else kh.2)) := by
  unfold App.SendTo
  cases hload : SyncMap.Load app.handlers uid with
  | none =>
    simp only
    rw [SyncMap.map_of_not_mem_keys (fun h => h.AddMsg msg) _ _
      ((SyncMap.Load_eq_none_iff _ _).mp hload)]
  | some h =>
    simp only
    exact SyncMap.Store_eq_map (fun h => h.AddMsg msg) _ _ h hwf hload

/-- The handler registry after one loop iteration on a ping. -/
theorem step_ping_handlers (x : Ext) (now : Time) (app : App) (msg : Msg)
    (hty : msg.GetType = "t-x-c-t") :
    (app.EventProcessorStep x now msg).handlers
      = ((App.SendTo ⟨app.handlers, []⟩ (pingUid msg.GetUid) (x.MakePong now)).SendToAllOther
          msg.TakMessage (pingUid msg.GetUid)).handlers := by
  unfold App.EventProcessorStep
  cases hc : msg.TakMessage.CotEvent with
  | none => simp [Msg.GetType, hc] at hty
  | some e =>
    simp only [hty, if_true]
    rw [SendToAllOther_handlers, SendToAllOther_handlers]
    congr 1
    cases app.GetContact (pingUid msg.GetUid) <;>
      · simp only [App.SendTo]
        cases SyncMap.Load app.handlers (pingUid msg.GetUid) <;> rfl

/-- C4. Ping dispatch: processing a message of type "t-x-c-t" whose uid is
X ++ "-ping" enqueues, on the handle registered under X, the pong and nothing
else (so nobody gets the pong when X has no handle), and on every other
registered handle the original ping and nothing else. -/
theorem C4_ping_dispatch (x : Ext) (now : Time) (app : App) (msg : Msg) (X : String)
    (hwf : SyncMap.WF app.handlers) (hty : msg.GetType = "t-x-c-t")
    (huid : msg.GetUid = X ++ "-ping") :
    (app.EventProcessorStep x now msg).handlers
        = app.handlers.map (fun kh =>
            (kh.1, { kh.2 with
                     outbox := kh.2.outbox ++
                       [if kh.1 = X then x.MakePong now else msg.TakMessage] }))
    ∧ (SyncMap.Load app.handlers X = none →
        (app.EventProcessorStep x now msg).handlers
          = app.handlers.map (fun kh =>
              (kh.1, { kh.2 with outbox := kh.2.outbox ++ [msg.TakMessage] }))) := by
  have h1 : (app.EventProcessorStep x now msg).handlers
      = app.handlers.map (fun kh =>
          (kh.1, { kh.2 with
                   outbox := kh.2.outbox ++
                     [if kh.1 = X then x.MakePong now else msg.TakMessage] })) := by
    rw [step_ping_handlers x now app msg hty, huid, pingUid_append_ping,
      SendToAllOther_handlers, SendTo_handlers ⟨app.handlers, []⟩ _ _ hwf, List.map_map]
    apply List.map_congr_left
    rintro ⟨k, h⟩ -
    by_cases hk : k = X <;> simp [broadcastEntry, ClientHandler.AddMsg, hk]
  refine ⟨h1, fun hnone => ?_⟩
  rw [h1]
  apply List.map_congr_left
  rintro ⟨k, h⟩ hmem
  have hX : X ∉ SyncMap.keys app.handlers := (SyncMap.Load_eq_none_iff _ _).mp hnone
  have hk : k ≠ X := by
    rintro rfl
    exact hX (List.mem_map_of_mem Prod.fst hmem)
  simp [hk]

/-- C4 at a concrete registry: the ping of "A-ping" gives "A" the pong and "B",
"C" the ping. -/
theorem C4_ping_dispatch_witness :
    (App.EventProcessorStep sampleExt 7 ⟨sampleHandlers, []⟩
        (sampleMsg "t-x-c-t" "A-ping" [] false)).handlers
      = [("A", ⟨"Alpha", [⟨some (sampleEvent "t-x-c-t-r" "takPong")⟩]⟩),
         ("B", ⟨"Bravo", [⟨some (sampleEvent "t-x-c-t" "A-ping")⟩]⟩),
         ("C", ⟨"Alpha", [⟨some (sampleEvent "t-x-c-t" "A-ping")⟩]⟩)] :=
  (C4_ping_dispatch sampleExt 7 ⟨sampleHandlers, []⟩
    (sampleMsg "t-x-c-t" "A-ping" [] false) "A" (by decide) (by decide) (by decide)).1.trans
    (by decide)

/-! ### The reaper -/

theorem cleanVisit_eq (now : Time) (key : String) (value : Entity) (toDelete : List String) :
    cleanVisit now key value toDelete
      = (if value.IsOld now then value else demote now value,
         if value.IsOld now then toDelete ++ [key] else toDelete, true) := by
  cases value with
  | unit u =>
    by_cases h : u.IsOld now <;> simp [cleanVisit, Entity.IsOld, demote, h]
  | contact c =>
    by_cases h : c.IsOld now
    · simp [cleanVisit, Entity.IsOld, h]
    · by_cases h2 : (c.IsOnline && decide (c.GetLastSeen + lastSeenOfflineTimeout < now)) = true
      · have h3 := h2
        simp only [Contact.IsOnline, Contact.GetLastSeen] at h3
        simp only [cleanVisit, Entity.IsOld, demote, h, h2, h3, if_true, Contact.SetOffline]
        simp
      · have h3 := h2
        simp only [Contact.IsOnline, Contact.GetLastSeen] at h3
        simp only [cleanVisit, Entity.IsOld, demote, h, h2, h3]
        simp

theorem Range_cleanVisit (now : Time) (m : SyncMap Entity) (acc : List String) :
    SyncMap.Range (cleanVisit now) m acc
      = (m.map (fun kv => (kv.1, if kv.2.IsOld now then kv.2 else demote now kv.2)),
         acc ++ SyncMap.keys (m.filter (fun kv => kv.2.IsOld now))) := by
  induction m generalizing acc with
  | nil => simp [SyncMap.Range, SyncMap.keys]
  | cons kv rest ih =>
    obtain ⟨k, v⟩ := kv
    simp only [SyncMap.Range, cleanVisit_eq, ih]
    by_cases h : v.IsOld now <;> simp [SyncMap.keys, h]

theorem foldl_Delete {V : Type} (ks : List String) (m : SyncMap V) :
    ks.foldl (fun m uid => SyncMap.Delete m uid) m
      = m.filter (fun kv => decide (kv.1 ∉ ks)) := by
  induction ks generalizing m with
  | nil => simp
  | cons k ks ih =>
    rw [List.foldl_cons, ih]
    unfold SyncMap.Delete
    rw [List.filter_filter]
    apply List.filter_congr
    intro kv _
    by_cases h1 : kv.1 = k <;> by_cases h2 : kv.1 ∈ ks <;> simp [h1, h2]

theorem SyncMap.eq_of_mem_of_key_eq {V : Type} (m : SyncMap V) (hwf : SyncMap.WF m)
    (a b : String × V) (ha : a ∈ m) (hb : b ∈ m) (hk : a.1 = b.1) : a = b :=
  List.inj_on_of_nodup_map hwf ha hb hk

theorem demote_IsOld (now : Time) (e : Entity) : (demote now e).IsOld now = e.IsOld now := by
  cases e with
  | unit u => rfl
  | contact c =>
    simp only [demote]
    split <;> rfl

/-- The registry after a reaper tick, in closed form. -/
theorem cleanOldUnits_units (app : App) (now : Time) (hwf : SyncMap.WF app.units) :
    (app.cleanOldUnits now).units
      = (app.units.filter (keptEntry now)).map (fun kv => (kv.1, demote now kv.2)) := by
  unfold App.cleanOldUnits
  simp only [Range_cleanVisit, List.nil_append, foldl_Delete, List.filter_map]
  have hfilter : app.units.filter
      ((fun kv : String × Entity => decide (kv.1 ∉ SyncMap.keys
          (app.units.filter (fun kv => kv.2.IsOld now)))) ∘
        fun kv => (kv.1, if kv.2.IsOld now then kv.2 else demote now kv.2))
      = app.units.filter (keptEntry now) := by
    apply List.filter_congr
    intro kv hkv
    have hiff : kv.1 ∈ SyncMap.keys (app.units.filter (fun kv => kv.2.IsOld now))
        ↔ kv.2.IsOld now = true := by
      constructor
      · intro hin
        obtain ⟨kv1, hmem1, hk⟩ := List.mem_map.mp hin
        obtain ⟨hmem, hold1⟩ := List.mem_filter.mp hmem1
        have := SyncMap.eq_of_mem_of_key_eq _ hwf kv1 kv hmem hkv hk
        subst this
        exact hold1
      · intro hold
        exact List.mem_map.mpr ⟨kv, List.mem_filter.mpr ⟨hkv, hold⟩, rfl⟩
    simp only [Function.comp, keptEntry]
    by_cases hold : kv.2.IsOld now = true
    · simp [hiff.mpr hold, hold]
    · have hnot : kv.1 ∉ SyncMap.keys (app.units.filter (fun kv => kv.2.IsOld now)) :=
        fun hin => hold (hiff.mp hin)
      simp [hnot, hold]
  rw [hfilter]
  apply List.map_congr_left
  intro kv hkv
  have hk : keptEntry now kv = true := (List.mem_filter.mp hkv).2
  simp only [keptEntry, Bool.not_eq_true'] at hk
  simp [hk]

theorem SyncMap.Load_filter_map {V : Type} (p : V → Bool) (g : V → V) (m : SyncMap V)
    (key : String) (hwf : SyncMap.WF m) :
    SyncMap.Load ((m.filter (fun kv => p kv.2)).map (fun kv => (kv.1, g kv.2))) key
      = match SyncMap.Load m key with
        | some v => if p v then some (g v) else none
        | none => none := by
  induction m with
  | nil => rfl
  | cons kv rest ih =>
    obtain ⟨k, v⟩ := kv
    have hnd : k ∉ SyncMap.keys rest ∧ SyncMap.WF rest := by
      simpa [SyncMap.WF, SyncMap.keys] using hwf
    have ih1 := ih hnd.2
    by_cases hk : k = key
    · subst hk
      have hnone : SyncMap.Load rest k = none := (SyncMap.Load_eq_none_iff _ _).mpr hnd.1
      rw [hnone] at ih1
      by_cases hp : p v = true
      · simp [List.filter, hp, SyncMap.Load]
      · simp only [Bool.not_eq_true] at hp
        simp only [List.filter, hp, SyncMap.Load, if_true]
        simpa using ih1
    · by_cases hp : p v = true
      · simp only [List.filter, hp, List.map_cons, SyncMap.Load, hk, if_false]
        exact ih1
      · simp only [Bool.not_eq_true] at hp
        simp only [List.filter, hp, SyncMap.Load, hk, if_false]
        exact ih1

/-- Lookup in the registry after a reaper tick. -/
theorem cleanOldUnits_Load (app : App) (now : Time) (hwf : SyncMap.WF app.units)
    (key : String) :
    SyncMap.Load (app.cleanOldUnits now).units key
      = match SyncMap.Load app.units key with
        | some e => if e.IsOld now then none else some (demote now e)
        | none => none := by
  rw [cleanOldUnits_units app now hwf]
  have h := SyncMap.Load_filter_map (fun e => !e.IsOld now) (demote now) app.units key hwf
  have hk : (fun kv : String × Entity => !kv.2.IsOld now) = keptEntry now := rfl
  rw [hk] at h
  rw [h]
  cases SyncMap.Load app.units key with
  | none => rfl
  | some e => cases hold : e.IsOld now <;> simp [hold]

theorem Entity.IsOld_iff (now : Time) (e : Entity) : e.IsOld now = true ↔ now > e.staleTime := by
  cases e <;> simp [Entity.IsOld, Unit.IsOld, Contact.IsOld, Entity.staleTime]

/-- C5. Reaper eviction: after one cleanOldUnits tick at time now the registry
holds exactly the uids that were present before and whose entity is not
stale-expired (IsOld, that is now > staleTime), Units and Contacts alike and
whatever the online state; an entity with staleTime = now - 1s is absent after
the tick, a non-stale offline contact is retained as it was, and the handler
registry is not touched. -/
theorem C5_reaper_eviction (app : App) (now : Time) (hwf : SyncMap.WF app.units) :
    SyncMap.keys (app.cleanOldUnits now).units
        = SyncMap.keys (app.units.filter (fun kv => !kv.2.IsOld now))
    ∧ (∀ key, (SyncMap.Load (app.cleanOldUnits now).units key).isSome = true
        ↔ ∃ e, SyncMap.Load app.units key = some e ∧ ¬ now > e.staleTime)
    ∧ (∀ e : Entity, e.IsOld now = true ↔ now > e.staleTime)
    ∧ (∀ key e, SyncMap.Load app.units key = some e → e.staleTime = now - Second →
        SyncMap.Load (app.cleanOldUnits now).units key = none)
    ∧ (∀ key c, SyncMap.Load app.units key = some (Entity.contact c) → c.online = false →
        ¬ now > c.staleTime →
        SyncMap.Load (app.cleanOldUnits now).units key = some (Entity.contact c))
    ∧ (app.cleanOldUnits now).handlers = app.handlers := by
  refine ⟨?_, ?_, Entity.IsOld_iff now, ?_, ?_, rfl⟩
  · rw [cleanOldUnits_units app now hwf]
    simp only [SyncMap.keys, List.map_map]
    rfl
  · intro key
    rw [cleanOldUnits_Load app now hwf]
    cases SyncMap.Load app.units key with
    | none => simp
    | some e =>
      by_cases hold : e.IsOld now = true
      · have := (Entity.IsOld_iff now e).mp hold
        simp [hold, this]
      · have hn : ¬ now > e.staleTime := fun h => hold ((Entity.IsOld_iff now e).mpr h)
        simp only [Bool.not_eq_true] at hold
        have hle : now ≤ e.staleTime := not_lt.mp hn
        simp [hold, hle]
  · intro key e hload hstale
    rw [cleanOldUnits_Load app now hwf, hload]
    have hold : e.IsOld now = true := by
      rw [Entity.IsOld_iff, hstale]
      simp [Second]
    simp [hold]
  · intro key c hload hoff hfresh
    rw [cleanOldUnits_Load app now hwf, hload]
    have hold : (Entity.contact c).IsOld now = false := by
      rw [← Bool.not_eq_true, Entity.IsOld_iff]
      exact hfresh
    simp [hold, demote, hoff]

/-- C5 at a concrete registry: the unit that went stale one second before the
tick is gone after it. -/
theorem C5_reaper_eviction_witness :
    SyncMap.Load (App.cleanOldUnits ⟨[], sampleUnits⟩ (200 * Second)).units "u1" = none :=
  (C5_reaper_eviction ⟨[], sampleUnits⟩ (200 * Second) (by decide)).2.2.2.1 "u1"
    (Entity.unit ⟨"u1", 199 * Second, 0, ⟨none⟩⟩) (by decide) (by decide)

/-- C6. Reaper offline transition: a contact that is online before a
cleanOldUnits tick at time now is in the registry and offline after the tick if
and only if it is not stale-expired and now - lastSeen exceeds the offline
timeout of two minutes (then only its online flag changed); when it is not
stale-expired and within the timeout it stays as it was; when it is
stale-expired it is removed; and no tick turns an offline contact online. -/
theorem C6_reaper_offline (app : App) (now : Time) (key : String) (c : Contact)
    (hwf : SyncMap.WF app.units)
    (hload : SyncMap.Load app.units key = some (Entity.contact c))
    (hon : c.online = true) :
    ((∃ c1, SyncMap.Load (app.cleanOldUnits now).units key = some (Entity.contact c1)
          ∧ c1.online = false)
        ↔ (¬ now > c.staleTime ∧ now - c.lastSeen > lastSeenOfflineTimeout))
    ∧ (¬ now > c.staleTime → now - c.lastSeen > lastSeenOfflineTimeout →
        SyncMap.Load (app.cleanOldUnits now).units key
          = some (Entity.contact { c with online := false }))
    ∧ (¬ now > c.staleTime → ¬ now - c.lastSeen > lastSeenOfflineTimeout →
        SyncMap.Load (app.cleanOldUnits now).units key = some (Entity.contact c))
    ∧ (now > c.staleTime → SyncMap.Load (app.cleanOldUnits now).units key = none)
    ∧ (∀ key2 c2 c3, SyncMap.Load app.units key2 = some (Entity.contact c2) →
        c2.online = false →
        SyncMap.Load (app.cleanOldUnits now).units key2 = some (Entity.contact c3) →
        c3.online = false)
    ∧ lastSeenOfflineTimeout = 2 * 60 * 1000000000 := by
  have hL := cleanOldUnits_Load app now hwf key
  rw [hload] at hL
  have hstale : (Entity.contact c).IsOld now = true ↔ now > c.staleTime :=
    Entity.IsOld_iff now (Entity.contact c)
  have hdue : now - c.lastSeen > lastSeenOfflineTimeout
      ↔ c.lastSeen + lastSeenOfflineTimeout < now := by
    generalize lastSeenOfflineTimeout = t
    have e1 : (now - c.lastSeen > t) = (t < now - c.lastSeen) := rfl
    rw [e1, lt_sub_iff_add_lt, add_comm]
  have hA : ¬ now > c.staleTime → now - c.lastSeen > lastSeenOfflineTimeout →
      SyncMap.Load (app.cleanOldUnits now).units key
        = some (Entity.contact { c with online := false }) := by
    intro h1 h2
    have hold : (Entity.contact c).IsOld now = false := by
      rw [← Bool.not_eq_true, hstale]; exact h1
    rw [hL]
    simp [hold, demote, hon, hdue.mp h2]
  have hB : ¬ now > c.staleTime → ¬ now - c.lastSeen > lastSeenOfflineTimeout →
      SyncMap.Load (app.cleanOldUnits now).units key = some (Entity.contact c) := by
    intro h1 h2
    have hold : (Entity.contact c).IsOld now = false := by
      rw [← Bool.not_eq_true, hstale]; exact h1
    have h3 : ¬ c.lastSeen + lastSeenOfflineTimeout < now := fun h => h2 (hdue.mpr h)
    rw [hL]
    simp [hold, demote, hon, h3]
  have hC : now > c.staleTime → SyncMap.Load (app.cleanOldUnits now).units key = none := by
    intro h1
    rw [hL]
    simp [hstale.mpr h1]
  refine ⟨⟨?_, ?_⟩, hA, hB, hC, ?_, by decide⟩
  · rintro ⟨c1, hc1, hoff⟩
    by_cases h1 : now > c.staleTime
    · rw [hC h1] at hc1
      cases hc1
    · refine ⟨h1, ?_⟩
      by_contra h2
      rw [hB h1 h2] at hc1
      simp only [Option.some.injEq, Entity.contact.injEq] at hc1
      subst hc1
      rw [hon] at hoff
      cases hoff
  · rintro ⟨h1, h2⟩
    exact ⟨_, hA h1 h2, rfl⟩
  · intro key2 c2 c3 hload2 hoff2 hafter
    rw [cleanOldUnits_Load app now hwf key2, hload2] at hafter
    by_cases hold : (Entity.contact c2).IsOld now = true
    · simp [hold] at hafter
    · simp only [Bool.not_eq_true] at hold
      simp [hold, demote, hoff2] at hafter
      subst hafter
      exact hoff2

/-- C6 at a concrete registry: the online contact "c1", silent for 190 s and
not stale, is offline after the tick at 200 s. -/
theorem C6_reaper_offline_witness :
    SyncMap.Load (App.cleanOldUnits ⟨[], sampleUnits⟩ (200 * Second)).units "c1"
      = some (Entity.contact ⟨"c1", 300 * Second, 10 * Second, false, ⟨none⟩⟩) :=
  (C6_reaper_offline ⟨[], sampleUnits⟩ (200 * Second) "c1"
    ⟨"c1", 300 * Second, 10 * Second, true, ⟨none⟩⟩ (by decide) (by decide) rfl).2.1
    (by decide) (by decide)

/-! ### The event processor and the entity registry -/

/-- C8. Empty-payload discard: a message without event payload (CotEvent nil)
leaves both registries as they are, so nothing is enqueued on any handle, and
the loop goes on with the next message: a queue with such a message in it is
processed like the queue without it. -/
theorem C8_empty_payload_discard (x : Ext) (now : Time) (app : App) (msg : Msg)
    (hnil : msg.TakMessage.CotEvent = none) :
    app.EventProcessorStep x now msg = app
    ∧ (app.EventProcessorStep x now msg).units = app.units
    ∧ (app.EventProcessorStep x now msg).handlers = app.handlers
    ∧ ∀ (before after : List (Time × Msg)),
        app.EventProcessor x (before ++ (now, msg) :: after)
          = app.EventProcessor x (before ++ after) := by
  have h : ∀ a : App, a.EventProcessorStep x now msg = a := by
    intro a
    unfold App.EventProcessorStep
    rw [hnil]
  refine ⟨h app, by rw [h app], by rw [h app], fun before after => ?_⟩
  unfold App.EventProcessor
  rw [List.foldl_append, List.foldl_append, List.foldl_cons, h]

/-- C8 at a concrete state: an empty message between two real ones. -/
theorem C8_empty_payload_discard_witness :
    App.EventProcessor sampleExt ⟨sampleHandlers, sampleUnits⟩
        ([(1, sampleMsg "a-f-G" "A" [] true)] ++
          (2, ⟨⟨none⟩, ⟨["Alpha"]⟩, true⟩) :: [(3, sampleMsg "b-m-p" "B" [] false)])
      = App.EventProcessor sampleExt ⟨sampleHandlers, sampleUnits⟩
        ([(1, sampleMsg "a-f-G" "A" [] true)] ++ [(3, sampleMsg "b-m-p" "B" [] false)]) :=
  (C8_empty_payload_discard sampleExt 2 ⟨sampleHandlers, sampleUnits⟩
    ⟨⟨none⟩, ⟨["Alpha"]⟩, true⟩ rfl).2.2.2 _ _

/-- C10. Unclassified types: a message with an event whose type is not
"t-x-c-t" and starts with neither "a-" nor "b-" leaves the entity registry as it
is and is routed by route: one SendToCallsign per destination callsign when
there are any, SendToAllOther with the message uid excluded otherwise. -/
theorem C10_unclassified_types (x : Ext) (now : Time) (app : App) (msg : Msg)
    (hev : msg.TakMessage.CotEvent ≠ none) (hty : msg.GetType ≠ "t-x-c-t")
    (ha : HasPrefix msg.GetType "a-" = false) (hb : HasPrefix msg.GetType "b-" = false) :
    (app.EventProcessorStep x now msg).units = app.units
    ∧ app.EventProcessorStep x now msg = app.route msg
    ∧ (msg.Detail.GetCallsignTo ≠ [] →
        app.EventProcessorStep x now msg
            = msg.Detail.GetCallsignTo.foldl (fun a s => a.SendToCallsign s msg.TakMessage) app
        ∧ (app.EventProcessorStep x now msg).handlers
            = addressedDelivery msg.Detail.GetCallsignTo msg.TakMessage [] app.handlers)
    ∧ (msg.Detail.GetCallsignTo = [] →
        app.EventProcessorStep x now msg = app.SendToAllOther msg.TakMessage msg.GetUid
        ∧ (app.EventProcessorStep x now msg).handlers
            = app.handlers.map (fun kh =>
                (kh.1, if kh.1 ≠ msg.GetUid then kh.2.AddMsg msg.TakMessage else kh.2))) := by
  have hstep : app.EventProcessorStep x now msg = app.route msg := by
    unfold App.EventProcessorStep
    cases hc : msg.TakMessage.CotEvent with
    | none => exact absurd hc hev
    | some e => simp [hty, ha, hb]
  refine ⟨by rw [hstep, route_units], hstep, fun hne => ?_, fun hnil => ?_⟩
  · rw [hstep]
    refine ⟨?_, route_addressed_handlers app msg hne⟩
    have hlen : msg.Detail.GetCallsignTo.length > 0 := List.length_pos.mpr hne
    unfold App.route
    simp only [hlen, if_true]
  · rw [hstep]
    have hr : app.route msg = app.SendToAllOther msg.TakMessage msg.GetUid := by
      unfold App.route
      simp [hnil]
    rw [hr]
    exact ⟨rfl, SendToAllOther_handlers _ _ _⟩

/-- C10 at a concrete state: a chat-like type "x-y" leaves the units alone. -/
theorem C10_unclassified_types_witness :
    (App.EventProcessorStep sampleExt 7 ⟨sampleHandlers, sampleUnits⟩
        (sampleMsg "x-y" "A" ["Bravo"] true)).units = sampleUnits :=
  (C10_unclassified_types sampleExt 7 ⟨sampleHandlers, sampleUnits⟩
    (sampleMsg "x-y" "A" ["Bravo"] true) (by decide) (by decide) (by decide) (by decide)).1

theorem SyncMap.Load_Store_self {V : Type} (m : SyncMap V) (key : String) (v : V) :
    SyncMap.Load (SyncMap.Store m key v) key = some v := by
  induction m with
  | nil => simp [SyncMap.Store, SyncMap.Load]
  | cons kv rest ih =>
    obtain ⟨k, w⟩ := kv
    by_cases hk : k = key
    · simp [SyncMap.Store, SyncMap.Load, hk]
    · simp [SyncMap.Store, SyncMap.Load, hk, ih]

theorem SyncMap.Load_Store_of_ne {V : Type} (m : SyncMap V) (key other : String) (v : V)
    (hne : other ≠ key) :
    SyncMap.Load (SyncMap.Store m key v) other = SyncMap.Load m other := by
  induction m with
  | nil =>
    have h : ¬ key = other := fun e => hne e.symm
    simp [SyncMap.Store, SyncMap.Load, h]
  | cons kv rest ih =>
    obtain ⟨k, w⟩ := kv
    by_cases hk : k = key
    · subst hk
      have h : ¬ k = other := fun e => hne e.symm
      simp [SyncMap.Store, SyncMap.Load, h]
    · by_cases ho : k = other
      · subst ho
        simp [SyncMap.Store, SyncMap.Load, hk]
      · simp [SyncMap.Store, SyncMap.Load, hk, ho, ih]

theorem SyncMap.length_Store_le {V : Type} (m : SyncMap V) (key : String) (v : V) :
    (SyncMap.Store m key v).length ≤ m.length + 1 := by
  induction m with
  | nil => simp [SyncMap.Store]
  | cons kv rest ih =>
    obtain ⟨k, w⟩ := kv
    by_cases hk : k = key
    · simp [SyncMap.Store, hk]
    · simp only [SyncMap.Store, hk, if_false, List.length_cons]
      omega

theorem SyncMap.keys_Store_of_mem {V : Type} (m : SyncMap V) (key : String) (v : V)
    (hmem : key ∈ SyncMap.keys m) :
    SyncMap.keys (SyncMap.Store m key v) = SyncMap.keys m := by
  induction m with
  | nil => simp [SyncMap.keys] at hmem
  | cons kv rest ih =>
    obtain ⟨k, w⟩ := kv
    by_cases hk : k = key
    · simp [SyncMap.Store, SyncMap.keys, hk]
    · have hrest : key ∈ SyncMap.keys rest := by
        simp only [SyncMap.keys, List.map_cons, List.mem_cons] at hmem
        rcases hmem with e | h
        · exact absurd e.symm hk
        · exact h
      have := ih hrest
      simp only [SyncMap.keys] at this
      simp [SyncMap.Store, SyncMap.keys, hk, this]

theorem SyncMap.keys_Store_of_not_mem {V : Type} (m : SyncMap V) (key : String) (v : V)
    (hmem : key ∉ SyncMap.keys m) :
    SyncMap.keys (SyncMap.Store m key v) = SyncMap.keys m ++ [key] := by
  induction m with
  | nil => simp [SyncMap.Store, SyncMap.keys]
  | cons kv rest ih =>
    obtain ⟨k, w⟩ := kv
    simp only [SyncMap.keys, List.map_cons, List.mem_cons, not_or] at hmem
    have hk : ¬ k = key := fun e => hmem.1 e.symm
    have := ih hmem.2
    simp only [SyncMap.keys] at this
    simp [SyncMap.Store, SyncMap.keys, hk, this]

theorem SyncMap.WF_Store {V : Type} (m : SyncMap V) (key : String) (v : V)
    (hwf : SyncMap.WF m) : SyncMap.WF (SyncMap.Store m key v) := by
  unfold SyncMap.WF at *
  by_cases hmem : key ∈ SyncMap.keys m
  · rw [SyncMap.keys_Store_of_mem m key v hmem]
    exact hwf
  · rw [SyncMap.keys_Store_of_not_mem m key v hmem]
    exact List.Nodup.append hwf (List.nodup_singleton _) (by simpa using hmem)

theorem HasPrefix_a_ne_ping (ty : String) (h : HasPrefix ty "a-" = true) : ty ≠ "t-x-c-t" := by
  rintro rfl
  revert h
  decide

theorem HasPrefix_b_ne_ping (ty : String) (h : HasPrefix ty "b-" = true) : ty ≠ "t-x-c-t" := by
  rintro rfl
  revert h
  decide

theorem HasPrefix_a_not_b (ty : String) (h : HasPrefix ty "a-" = true) :
    HasPrefix ty "b-" = false := by
  obtain ⟨l⟩ := ty
  cases l with
  | nil => revert h; decide
  | cons c l =>
    simp only [HasPrefix] at h ⊢
    simp only [List.isPrefixOf, Bool.and_eq_true, beq_iff_eq] at h
    have hc : c = 'a' := h.1.symm
    subst hc
    simp [List.isPrefixOf]

/-- The entity registry after one loop iteration on a message with an event
that is not a ping. -/
theorem step_units_of_not_ping (x : Ext) (now : Time) (app : App) (msg : Msg)
    (hev : msg.TakMessage.CotEvent ≠ none) (hty : msg.GetType ≠ "t-x-c-t") :
    (app.EventProcessorStep x now msg).units
      = if HasPrefix msg.GetType "a-" then
          if msg.IsContact then
            match app.GetContact msg.GetUid with
            | some c => SyncMap.Store app.units msg.GetUid
                (Entity.contact (c.SetLastSeenNow now (some msg.TakMessage)))
            | none => (app.AddContact msg.GetUid (x.ContactFromEvent now msg.TakMessage)).units
          else (app.AddUnit msg.GetUid (x.UnitFromEvent now msg.TakMessage)).units
        else if HasPrefix msg.GetType "b-" then
          (app.AddUnit msg.GetUid (x.UnitFromEvent now msg.TakMessage)).units
        else app.units := by
  unfold App.EventProcessorStep
  cases hc : msg.TakMessage.CotEvent with
  | none => exact absurd hc hev
  | some e =>
    simp only [hty, if_false]
    split
    · rw [route_units]
      split
      · cases app.GetContact msg.GetUid <;> rfl
      · rfl
    · split
      · rw [route_units]
      · rw [route_units]

theorem GetType_of_no_event (msg : Msg) (h : msg.TakMessage.CotEvent = none) :
    msg.GetType = "" := by
  simp [Msg.GetType, h]

/-- The registry after storing an entity under the message uid. -/
theorem upsert_facts (units : SyncMap Entity) (uid : String) (e : Entity) :
    SyncMap.Load (SyncMap.Store units uid e) uid = some e
    ∧ (∀ key, key ≠ uid → SyncMap.Load (SyncMap.Store units uid e) key = SyncMap.Load units key)
    ∧ (SyncMap.Store units uid e).length ≤ units.length + 1
    ∧ (uid ∈ SyncMap.keys units → SyncMap.keys (SyncMap.Store units uid e) = SyncMap.keys units)
    ∧ (SyncMap.WF units → SyncMap.WF (SyncMap.Store units uid e)) :=
  ⟨SyncMap.Load_Store_self _ _ _, fun key hne => SyncMap.Load_Store_of_ne _ _ key _ hne,
    SyncMap.length_Store_le _ _ _, SyncMap.keys_Store_of_mem _ _ _, SyncMap.WF_Store _ _ _⟩

/-- The entity registry after processing a message of type "a-..." or "b-..."
whose builder answers an entity: a Store under the message uid. -/
theorem step_units_classified (x : Ext) (now : Time) (app : App) (msg : Msg)
    (unit : Unit) (fresh : Contact)
    (hcls : HasPrefix msg.GetType "a-" = true ∨ HasPrefix msg.GetType "b-" = true)
    (hu : ¬ (HasPrefix msg.GetType "a-" = true ∧ msg.IsContact = true) →
      x.UnitFromEvent now msg.TakMessage = some unit)
    (hc : HasPrefix msg.GetType "a-" = true → msg.IsContact = true →
      app.GetContact msg.GetUid = none →
      x.ContactFromEvent now msg.TakMessage = some fresh) :
    (app.EventProcessorStep x now msg).units
      = SyncMap.Store app.units msg.GetUid
          (if HasPrefix msg.GetType "a-" = true ∧ msg.IsContact = true then
            Entity.contact
              (match app.GetContact msg.GetUid with
               | some c => c.SetLastSeenNow now (some msg.TakMessage)
               | none => fresh)
          else Entity.unit unit) := by
  have hev : msg.TakMessage.CotEvent ≠ none := by
    intro hnone
    rw [GetType_of_no_event msg hnone] at hcls
    revert hcls
    decide
  have hty : msg.GetType ≠ "t-x-c-t" := by
    rcases hcls with h | h
    · exact HasPrefix_a_ne_ping _ h
    · exact HasPrefix_b_ne_ping _ h
  rw [step_units_of_not_ping x now app msg hev hty]
  by_cases ha : HasPrefix msg.GetType "a-" = true
  · by_cases hic : msg.IsContact = true
    · simp only [ha, hic, if_true, and_self]
      cases hg : app.GetContact msg.GetUid with
      | some c => rfl
      | none =>
        rw [hc ha hic hg]
        rfl
    · have hnot : ¬ (HasPrefix msg.GetType "a-" = true ∧ msg.IsContact = true) :=
        fun h => hic h.2
      rw [if_pos ha, if_neg hic, if_neg hnot, hu hnot]
      rfl
  · have hbp : HasPrefix msg.GetType "b-" = true := hcls.resolve_left ha
    have hnot : ¬ (HasPrefix msg.GetType "a-" = true ∧ msg.IsContact = true) :=
      fun h => ha h.1
    rw [if_neg ha, if_pos hbp, if_neg hnot, hu hnot]
    rfl

/-- C9. Classification and upsert: for a message with uid u whose type starts
with "a-" or "b-" and whose event yields a non-nil entity, the registry after
processing holds under u a Contact exactly when the type starts with "a-" and
the message is contact-flavored (the contact built from the event when no
contact was held under u, the held contact refreshed with the event otherwise)
and the Unit built from the event in every other case, always for "b-"; every
lookup under another uid is unchanged, the number of entries grows by at most
one, and a uid already present keeps its single entry. -/
theorem C9_classification_upsert (x : Ext) (now : Time) (app : App) (msg : Msg)
    (unit : Unit) (fresh : Contact)
    (hcls : HasPrefix msg.GetType "a-" = true ∨ HasPrefix msg.GetType "b-" = true)
    (hu : ¬ (HasPrefix msg.GetType "a-" = true ∧ msg.IsContact = true) →
      x.UnitFromEvent now msg.TakMessage = some unit)
    (hc : HasPrefix msg.GetType "a-" = true → msg.IsContact = true →
      app.GetContact msg.GetUid = none →
      x.ContactFromEvent now msg.TakMessage = some fresh) :
    ((∃ c, SyncMap.Load (app.EventProcessorStep x now msg).units msg.GetUid
          = some (Entity.contact c))
        ↔ (HasPrefix msg.GetType "a-" = true ∧ msg.IsContact = true))
    ∧ (HasPrefix msg.GetType "a-" = true → msg.IsContact = true →
        ∀ held, app.GetContact msg.GetUid = some held →
          SyncMap.Load (app.EventProcessorStep x now msg).units msg.GetUid
            = some (Entity.contact (held.SetLastSeenNow now (some msg.TakMessage))))
    ∧ (HasPrefix msg.GetType "a-" = true → msg.IsContact = true →
        app.GetContact msg.GetUid = none →
          SyncMap.Load (app.EventProcessorStep x now msg).units msg.GetUid
            = some (Entity.contact fresh))
    ∧ (¬ (HasPrefix msg.GetType "a-" = true ∧ msg.IsContact = true) →
        SyncMap.Load (app.EventProcessorStep x now msg).units msg.GetUid
          = some (Entity.unit unit))
    ∧ (HasPrefix msg.GetType "b-" = true →
        SyncMap.Load (app.EventProcessorStep x now msg).units msg.GetUid
          = some (Entity.unit unit))
    ∧ (∀ key, key ≠ msg.GetUid →
        SyncMap.Load (app.EventProcessorStep x now msg).units key
          = SyncMap.Load app.units key)
    ∧ (app.EventProcessorStep x now msg).units.length ≤ app.units.length + 1
    ∧ (msg.GetUid ∈ SyncMap.keys app.units →
        SyncMap.keys (app.EventProcessorStep x now msg).units = SyncMap.keys app.units)
    ∧ (SyncMap.WF app.units → SyncMap.WF (app.EventProcessorStep x now msg).units) := by
  have hstep := step_units_classified x now app msg unit fresh hcls hu hc
  rw [hstep]
  obtain ⟨hself, hother, hlen, hkeys, hwf⟩ := upsert_facts app.units msg.GetUid
    (if HasPrefix msg.GetType "a-" = true ∧ msg.IsContact = true then
      Entity.contact
        (match app.GetContact msg.GetUid with
         | some c => c.SetLastSeenNow now (some msg.TakMessage)
         | none => fresh)
    else Entity.unit unit)
  have hunit : ¬ (HasPrefix msg.GetType "a-" = true ∧ msg.IsContact = true) →
      SyncMap.Load (SyncMap.Store app.units msg.GetUid
        (if HasPrefix msg.GetType "a-" = true ∧ msg.IsContact = true then
          Entity.contact
            (match app.GetContact msg.GetUid with
             | some c => c.SetLastSeenNow now (some msg.TakMessage)
             | none => fresh)
        else Entity.unit unit)) msg.GetUid = some (Entity.unit unit) := by
    intro hnot
    rw [hself, if_neg hnot]
  refine ⟨⟨?_, ?_⟩, ?_, ?_, hunit, ?_, hother, hlen, hkeys, hwf⟩
  · rintro ⟨c, hload⟩
    by_contra hnot
    rw [hunit hnot] at hload
    cases hload
  · intro hyes
    rw [hself, if_pos hyes]
    exact ⟨_, rfl⟩
  · intro ha hic held hheld
    rw [hself, if_pos ⟨ha, hic⟩, hheld]
  · intro ha hic hnone
    rw [hself, if_pos ⟨ha, hic⟩, hnone]
  · intro hbp
    apply hunit
    rintro ⟨ha, -⟩
    rw [HasPrefix_a_not_b _ ha] at hbp
    cases hbp

/-- C9 at a concrete state: a contact-flavored "a-f-G" from the new uid "Z" puts
the contact built from the event under "Z". -/
theorem C9_classification_upsert_witness :
    SyncMap.Load (App.EventProcessorStep sampleExt 7 ⟨sampleHandlers, sampleUnits⟩
        (sampleMsg "a-f-G" "Z" [] true)).units "Z"
      = some (Entity.contact
          ⟨"contact", 9000000, 7, true, ⟨some (sampleEvent "a-f-G" "Z")⟩⟩) :=
  (C9_classification_upsert sampleExt 7 ⟨sampleHandlers, sampleUnits⟩
    (sampleMsg "a-f-G" "Z" [] true) ⟨"unit", 9000000, 7, ⟨some (sampleEvent "a-f-G" "Z")⟩⟩
    ⟨"contact", 9000000, 7, true, ⟨some (sampleEvent "a-f-G" "Z")⟩⟩
    (Or.inl (by decide)) (fun _ => rfl) (fun _ _ _ => rfl)).2.2.1
    (by decide) (by decide) (by decide)

/-! ### Variants -/

theorem GetContact_eq_some (app : App) (uid : String) (c : Contact)
    (h : app.GetContact uid = some c) :
    SyncMap.Load app.units uid = some (Entity.contact c) := by
  unfold App.GetContact at h
  split at h
  · rename_i c1 heq
    cases h
    exact heq
  · cases h
  · cases h

/-- The entity registry after one loop iteration on a ping. -/
theorem step_ping_units (x : Ext) (now : Time) (app : App) (msg : Msg)
    (hty : msg.GetType = "t-x-c-t") :
    (app.EventProcessorStep x now msg).units
      = match app.GetContact (pingUid msg.GetUid) with
        | some c => SyncMap.Store app.units (pingUid msg.GetUid)
            (Entity.contact (c.SetLastSeenNow now none))
        | none => app.units := by
  unfold App.EventProcessorStep
  cases hc : msg.TakMessage.CotEvent with
  | none => simp [Msg.GetType, hc] at hty
  | some e =>
    simp only [hty, if_true]
    rw [SendToAllOther_units, SendTo_units]
    cases app.GetContact (pingUid msg.GetUid) <;> rfl

theorem demote_isContact (now : Time) (e : Entity) :
    (demote now e).isContact = e.isContact := by
  cases e with
  | unit u => rfl
  | contact c =>
    simp only [demote]
    split <;> rfl

/-- Storing an entity under key: a lookup under uid either sees the old entry
or, when uid is key, the stored entity. -/
theorem Load_Store_cases (units : SyncMap Entity) (key uid : String) (stored e1 : Entity)
    (h : SyncMap.Load (SyncMap.Store units key stored) uid = some e1) :
    (key = uid ∧ e1 = stored) ∨ (key ≠ uid ∧ SyncMap.Load units uid = some e1) := by
  by_cases hk : key = uid
  · subst hk
    rw [SyncMap.Load_Store_self] at h
    cases h
    exact Or.inl ⟨rfl, rfl⟩
  · rw [SyncMap.Load_Store_of_ne _ _ _ _ (fun e => hk e.symm)] at h
    exact Or.inr ⟨hk, h⟩

/-- One processed message and the variant under a uid: it stays, unless the
message is classified, carries that uid, and then the new variant is the one
of the message. -/
theorem process_variant (x : Ext) (now : Time) (app : App) (msg : Msg) (uid : String)
    (e e1 : Entity) (h1 : SyncMap.Load app.units uid = some e)
    (h2 : SyncMap.Load (app.EventProcessorStep x now msg).units uid = some e1) :
    e1.isContact = e.isContact
      ∨ (msg.GetUid = uid ∧ msg.variant = some e1.isContact) := by
  cases hc : msg.TakMessage.CotEvent with
  | none =>
    have hstep : app.EventProcessorStep x now msg = app := by
      unfold App.EventProcessorStep
      rw [hc]
    rw [hstep, h1] at h2
    cases h2
    exact Or.inl rfl
  | some ev =>
    have hev : msg.TakMessage.CotEvent ≠ none := by rw [hc]; exact fun h => nomatch h
    have keep : SyncMap.Load app.units uid = some e1 → e1.isContact = e.isContact := by
      intro h
      rw [h1] at h
      cases h
      rfl
    by_cases hty : msg.GetType = "t-x-c-t"
    · left
      rw [step_ping_units x now app msg hty] at h2
      cases hg : app.GetContact (pingUid msg.GetUid) with
      | none =>
        rw [hg] at h2
        exact keep h2
      | some c =>
        rw [hg] at h2
        rcases Load_Store_cases _ _ _ _ _ h2 with ⟨hk, he⟩ | ⟨-, hl⟩
        · have := GetContact_eq_some app _ c hg
          rw [hk, h1] at this
          cases this
          rw [he]
          rfl
        · exact keep hl
    · rw [step_units_of_not_ping x now app msg hev hty] at h2
      by_cases ha : HasPrefix msg.GetType "a-" = true
      · by_cases hic : msg.IsContact = true
        · simp only [ha, hic, if_true] at h2
          cases hg : app.GetContact msg.GetUid with
          | some c =>
            rw [hg] at h2
            rcases Load_Store_cases _ _ _ _ _ h2 with ⟨hk, he⟩ | ⟨-, hl⟩
            · left
              have := GetContact_eq_some app _ c hg
              rw [hk, h1] at this
              cases this
              rw [he]
              rfl
            · exact Or.inl (keep hl)
          | none =>
            rw [hg] at h2
            cases hb : x.ContactFromEvent now msg.TakMessage with
            | none =>
              rw [hb] at h2
              exact Or.inl (keep h2)
            | some fresh =>
              rw [hb] at h2
              rcases Load_Store_cases _ _ _ _ _ h2 with ⟨hk, he⟩ | ⟨-, hl⟩
              · right
                refine ⟨hk, ?_⟩
                rw [he]
                simp [Msg.variant, hc, hty, ha, hic, Entity.isContact]
              · exact Or.inl (keep hl)
        · simp only [ha, hic, if_true, if_false] at h2
          cases hb : x.UnitFromEvent now msg.TakMessage with
          | none =>
            rw [hb] at h2
            exact Or.inl (keep h2)
          | some unit =>
            rw [hb] at h2
            rcases Load_Store_cases _ _ _ _ _ h2 with ⟨hk, he⟩ | ⟨-, hl⟩
            · right
              refine ⟨hk, ?_⟩
              rw [he]
              simp [Msg.variant, hc, hty, ha, hic, Entity.isContact]
            · exact Or.inl (keep hl)
      · by_cases hbp : HasPrefix msg.GetType "b-" = true
        · simp only [ha, hbp, if_true, if_false] at h2
          cases hb : x.UnitFromEvent now msg.TakMessage with
          | none =>
            rw [hb] at h2
            exact Or.inl (keep h2)
          | some unit =>
            rw [hb] at h2
            rcases Load_Store_cases _ _ _ _ _ h2 with ⟨hk, he⟩ | ⟨-, hl⟩
            · right
              refine ⟨hk, ?_⟩
              rw [he]
              simp [Msg.variant, hc, hty, ha, hbp, Entity.isContact]
            · exact Or.inl (keep hl)
        · simp only [ha, hbp, if_false] at h2
          exact Or.inl (keep h2)

/-- C7 as stated fails: the registry holds the Contact "c2"; a point message
"b-m-p" with the uid "c2" makes the entry under "c2" a Unit. -/
theorem C7_variant_stability_counterexample :
    ¬ (∀ (x : Ext) (app : App) (s : Step) (uid : String) (e e1 : Entity),
        SyncMap.WF app.units →
        SyncMap.Load app.units uid = some e →
        SyncMap.Load (app.step x s).units uid = some e1 →
        e1.isContact = e.isContact) := by
  intro h
  have h1 := h sampleExt ⟨sampleHandlers, sampleUnits⟩
    (Step.process 7 (sampleMsg "b-m-p" "c2" [] false)) "c2"
    (Entity.contact ⟨"c2", 300 * Second, 100 * Second, true, ⟨none⟩⟩)
    (Entity.unit ⟨"unit", 9000000, 7, ⟨some (sampleEvent "b-m-p" "c2")⟩⟩)
    (by decide) (by decide) (by decide)
  revert h1
  decide

/-- C7, amended. Across one step (a processed message or a reaper tick) the
variant stored under a uid stays the same, except when the step processes a
message that carries this uid and that the event processor classifies ("a-..."
or "b-..."): then the entry under the uid has the variant of the message
(Contact for a contact-flavored "a-...", Unit otherwise).  So reaper ticks,
pings, unclassified and empty messages, messages of another uid, and messages
classified like the stored entity never change the variant. -/
theorem C7_variant_stability_amended (x : Ext) (app : App) (s : Step) (uid : String)
    (e e1 : Entity) (hwf : SyncMap.WF app.units)
    (h1 : SyncMap.Load app.units uid = some e)
    (h2 : SyncMap.Load (app.step x s).units uid = some e1) :
    (e1.isContact = e.isContact
      ∨ ∃ now msg, s = Step.process now msg ∧ msg.GetUid = uid
          ∧ msg.variant = some e1.isContact)
    ∧ ((∀ now msg, s = Step.process now msg → msg.GetUid = uid →
          msg.variant = none ∨ msg.variant = some e.isContact) →
        e1.isContact = e.isContact)
    ∧ e1.isUnit = !e1.isContact := by
  have hmain : e1.isContact = e.isContact
      ∨ ∃ now msg, s = Step.process now msg ∧ msg.GetUid = uid
          ∧ msg.variant = some e1.isContact := by
    cases s with
    | process now msg =>
      rcases process_variant x now app msg uid e e1 h1 h2 with h | ⟨hu, hv⟩
      · exact Or.inl h
      · exact Or.inr ⟨now, msg, rfl, hu, hv⟩
    | tick now =>
      left
      simp only [App.step] at h2
      rw [cleanOldUnits_Load app now hwf uid, h1] at h2
      by_cases hold : e.IsOld now = true
      · simp [hold] at h2
      · simp only [Bool.not_eq_true] at hold
        simp only [hold] at h2
        simp only [Bool.false_eq_true, if_false, Option.some.injEq] at h2
        rw [← h2]
        exact demote_isContact now e
  refine ⟨hmain, fun hs => ?_, by cases e1 <;> rfl⟩
  rcases hmain with h | ⟨now, msg, hs1, hu, hv⟩
  · exact h
  · rcases hs now msg hs1 hu with hn | hsame
    · rw [hn] at hv
      cases hv
    · rw [hsame] at hv
      exact (Option.some.inj hv).symm

/-- C7 amended, at a concrete state: the reaper tick at 200 s sets the Contact
"c1" offline and leaves it a Contact. -/
theorem C7_variant_stability_amended_witness :
    SyncMap.Load (App.step sampleExt ⟨sampleHandlers, sampleUnits⟩
        (Step.tick (200 * Second))).units "c1"
      = some (Entity.contact ⟨"c1", 300 * Second, 10 * Second, false, ⟨none⟩⟩)
    ∧ Entity.isContact (Entity.contact ⟨"c1", 300 * Second, 10 * Second, false, ⟨none⟩⟩)
      = Entity.isContact (Entity.contact ⟨"c1", 300 * Second, 10 * Second, true, ⟨none⟩⟩) :=
  ⟨by decide,
   (C7_variant_stability_amended sampleExt ⟨sampleHandlers, sampleUnits⟩
      (Step.tick (200 * Second)) "c1"
      (Entity.contact ⟨"c1", 300 * Second, 10 * Second, true, ⟨none⟩⟩)
      (Entity.contact ⟨"c1", 300 * Second, 10 * Second, false, ⟨none⟩⟩)
      (by decide) (by decide) (by decide)).2.1 (fun _ _ h => nomatch h)⟩

/-! ### Pings and the entity registry -/

theorem SyncMap.mem_keys_of_Load {V : Type} (m : SyncMap V) (key : String) (v : V)
    (h : SyncMap.Load m key = some v) : key ∈ SyncMap.keys m := by
  by_contra hnot
  rw [(SyncMap.Load_eq_none_iff m key).mpr hnot] at h
  cases h

theorem GetContact_eq_none_iff (app : App) (uid : String) :
    app.GetContact uid = none
      ↔ (SyncMap.Load app.units uid = none ∨ ∃ u, SyncMap.Load app.units uid = some (Entity.unit u)) := by
  unfold App.GetContact
  cases h : SyncMap.Load app.units uid with
  | none => simp
  | some e =>
    cases e with
    | unit u => simp
    | contact c => simp

/-- C11. Ping registry effect: processing a ping (type "t-x-c-t") whose
canonical uid is X leaves the keys of the entity registry as they are (no entry
added, none removed); when a Contact is held under X, the entry under X is that
contact with lastSeen set to now and the state online, and every lookup under
another uid is unchanged; when X holds no Contact (nothing, or a Unit), the
registry is unchanged altogether. -/
theorem C11_ping_registry_effect (x : Ext) (now : Time) (app : App) (msg : Msg)
    (hty : msg.GetType = "t-x-c-t") :
    SyncMap.keys (app.EventProcessorStep x now msg).units = SyncMap.keys app.units
    ∧ (app.EventProcessorStep x now msg).units.length = app.units.length
    ∧ (∀ c, SyncMap.Load app.units (pingUid msg.GetUid) = some (Entity.contact c) →
        SyncMap.Load (app.EventProcessorStep x now msg).units (pingUid msg.GetUid)
            = some (Entity.contact { c with lastSeen := now, online := true })
        ∧ ∀ key, key ≠ pingUid msg.GetUid →
            SyncMap.Load (app.EventProcessorStep x now msg).units key
              = SyncMap.Load app.units key)
    ∧ (SyncMap.Load app.units (pingUid msg.GetUid) = none →
        (app.EventProcessorStep x now msg).units = app.units)
    ∧ (∀ u, SyncMap.Load app.units (pingUid msg.GetUid) = some (Entity.unit u) →
        (app.EventProcessorStep x now msg).units = app.units) := by
  have hstep := step_ping_units x now app msg hty
  have hnone : app.GetContact (pingUid msg.GetUid) = none →
      (app.EventProcessorStep x now msg).units = app.units := by
    intro hg
    rw [hstep, hg]
  have hsome : ∀ c, SyncMap.Load app.units (pingUid msg.GetUid) = some (Entity.contact c) →
      (app.EventProcessorStep x now msg).units
        = SyncMap.Store app.units (pingUid msg.GetUid)
            (Entity.contact { c with lastSeen := now, online := true }) := by
    intro c hload
    have hg : app.GetContact (pingUid msg.GetUid) = some c := by
      unfold App.GetContact
      rw [hload]
    rw [hstep, hg]
    rfl
  have hkeys : SyncMap.keys (app.EventProcessorStep x now msg).units = SyncMap.keys app.units := by
    cases hg : app.GetContact (pingUid msg.GetUid) with
    | none => rw [hnone hg]
    | some c =>
      have hload := GetContact_eq_some app _ c hg
      rw [hsome c hload]
      exact SyncMap.keys_Store_of_mem _ _ _ (SyncMap.mem_keys_of_Load _ _ _ hload)
  refine ⟨hkeys, ?_, ?_, ?_, ?_⟩
  · have := congrArg List.length hkeys
    simpa [SyncMap.keys] using this
  · intro c hload
    rw [hsome c hload]
    exact ⟨SyncMap.Load_Store_self _ _ _,
      fun key hne => SyncMap.Load_Store_of_ne _ _ key _ hne⟩
  · intro hl
    exact hnone ((GetContact_eq_none_iff app _).mpr (Or.inl hl))
  · intro u hl
    exact hnone ((GetContact_eq_none_iff app _).mpr (Or.inr ⟨u, hl⟩))

/-- C11 at a concrete registry: the ping of "c3-ping" at time 7 turns the
offline contact "c3" online with lastSeen 7. -/
theorem C11_ping_registry_effect_witness :
    SyncMap.Load (App.EventProcessorStep sampleExt 7 ⟨sampleHandlers, sampleUnits⟩
        (sampleMsg "t-x-c-t" "c3-ping" [] false)).units "c3"
      = some (Entity.contact ⟨"c3", 300 * Second, 7, true, ⟨none⟩⟩) :=
  ((C11_ping_registry_effect sampleExt 7 ⟨sampleHandlers, sampleUnits⟩
    (sampleMsg "t-x-c-t" "c3-ping" [] false) (by decide)).2.2.1
    ⟨"c3", 300 * Second, 10 * Second, false, ⟨none⟩⟩ (by decide)).1

/-- C12. Variant mismatch on access is treated as absent: GetContact answers a
contact exactly when the registry holds that Contact under the uid, GetUnit a
unit exactly when it holds that Unit; with the other variant stored, or nothing
stored, the answer is nil.  Both are total functions of the registry that hand
back no new registry: no failure, no change. -/
theorem C12_variant_mismatch_absent (app : App) (uid : String) :
    (∀ c, app.GetContact uid = some c ↔ SyncMap.Load app.units uid = some (Entity.contact c))
    ∧ (∀ u, app.GetUnit uid = some u ↔ SyncMap.Load app.units uid = some (Entity.unit u))
    ∧ ((∃ u, SyncMap.Load app.units uid = some (Entity.unit u)) → app.GetContact uid = none)
    ∧ ((∃ c, SyncMap.Load app.units uid = some (Entity.contact c)) → app.GetUnit uid = none)
    ∧ (SyncMap.Load app.units uid = none → app.GetContact uid = none ∧ app.GetUnit uid = none) := by
  unfold App.GetContact App.GetUnit
  cases h : SyncMap.Load app.units uid with
  | none => simp
  | some e =>
    cases e with
    | unit u => simp
    | contact c => simp

/-- C12 at a concrete registry: "u2" holds a Unit, so GetContact answers nil. -/
theorem C12_variant_mismatch_absent_witness :
    App.GetContact ⟨sampleHandlers, sampleUnits⟩ "u2" = none :=
  (C12_variant_mismatch_absent ⟨sampleHandlers, sampleUnits⟩ "u2").2.2.1
    ⟨⟨"u2", 300 * Second, 0, ⟨none⟩⟩, by decide⟩

/-! ### The ping suffix rule -/

theorem HasSuffix_iff (uid suf : String) :
    HasSuffix uid suf = true ↔ ∃ X : String, uid = X ++ suf := by
  unfold HasSuffix
  rw [List.isPrefixOf_iff_prefix, List.reverse_prefix]
  constructor
  · rintro ⟨t, ht⟩
    exact ⟨⟨t⟩, String.ext (by rw [String.data_append, ← ht])⟩
  · rintro ⟨X, rfl⟩
    exact ⟨X.data, by rw [String.data_append]⟩

theorem dropLast_append (X suf : String) (n : Nat) (hn : suf.data.length = n) :
    dropLast (X ++ suf) n = X := by
  unfold dropLast
  have hlen : (X ++ suf).data.length - n = X.data.length := by
    rw [String.data_append, List.length_append, hn]
    omega
  rw [hlen, String.data_append, List.take_left]

/-- One loop iteration on a ping, with the three places the canonical uid is
used: the contact lookup, the pong addressee, the broadcast exclusion. -/
theorem step_ping_eq (x : Ext) (now : Time) (app : App) (msg : Msg)
    (hty : msg.GetType = "t-x-c-t") :
    app.EventProcessorStep x now msg
      = (App.SendTo
          (match app.GetContact (pingUid msg.GetUid) with
           | some c =>
             { app with
               units := SyncMap.Store app.units (pingUid msg.GetUid)
                 (Entity.contact (c.SetLastSeenNow now none)) }
           | none => app)
          (pingUid msg.GetUid) (x.MakePong now)).SendToAllOther msg.TakMessage
            (pingUid msg.GetUid) := by
  unfold App.EventProcessorStep
  cases hc : msg.TakMessage.CotEvent with
  | none => simp [Msg.GetType, hc] at hty
  | some e => simp only [hty, if_true]

/-- C17. Ping suffix rule: the canonical uid of a ping is the uid without its
last 5 characters exactly when the uid ends with "-ping", and the uid itself
otherwise; so the canonical uid of X ++ "-ping" is X; and the contact lookup,
the pong addressee and the broadcast exclusion of a ping all use this canonical
uid, which for a uid that does not end with "-ping" is the uid itself. -/
theorem C17_ping_suffix_rule (uid : String) :
    (HasSuffix uid "-ping" = true ↔ ∃ X : String, uid = X ++ "-ping")
    ∧ (HasSuffix uid "-ping" = true →
        pingUid uid = dropLast uid 5
        ∧ (pingUid uid).data = uid.data.take (uid.data.length - 5)
        ∧ (pingUid uid).length + 5 = uid.length
        ∧ uid = pingUid uid ++ "-ping")
    ∧ (HasSuffix uid "-ping" = false → pingUid uid = uid)
    ∧ (∀ X : String, pingUid (X ++ "-ping") = X)
    ∧ (∀ (x : Ext) (now : Time) (app : App) (msg : Msg),
        msg.GetType = "t-x-c-t" → msg.GetUid = uid →
        app.EventProcessorStep x now msg
          = (App.SendTo
              (match app.GetContact (pingUid uid) with
               | some c =>
                 { app with
                   units := SyncMap.Store app.units (pingUid uid)
                     (Entity.contact (c.SetLastSeenNow now none)) }
               | none => app)
              (pingUid uid) (x.MakePong now)).SendToAllOther msg.TakMessage (pingUid uid))
    ∧ (HasSuffix uid "-ping" = false →
        ∀ (x : Ext) (now : Time) (app : App) (msg : Msg),
        msg.GetType = "t-x-c-t" → msg.GetUid = uid →
        app.EventProcessorStep x now msg
          = (App.SendTo
              (match app.GetContact uid with
               | some c =>
                 { app with
                   units := SyncMap.Store app.units uid
                     (Entity.contact (c.SetLastSeenNow now none)) }
               | none => app)
              uid (x.MakePong now)).SendToAllOther msg.TakMessage uid) := by
  have hstep : ∀ (x : Ext) (now : Time) (app : App) (msg : Msg),
      msg.GetType = "t-x-c-t" → msg.GetUid = uid →
      app.EventProcessorStep x now msg
        = (App.SendTo
            (match app.GetContact (pingUid uid) with
             | some c =>
               { app with
                 units := SyncMap.Store app.units (pingUid uid)
                   (Entity.contact (c.SetLastSeenNow now none)) }
             | none => app)
            (pingUid uid) (x.MakePong now)).SendToAllOther msg.TakMessage (pingUid uid) := by
    intro x now app msg hty hu
    rw [step_ping_eq x now app msg hty, hu]
  have hno : HasSuffix uid "-ping" = false → pingUid uid = uid := by
    intro h
    simp [pingUid, h]
  refine ⟨HasSuffix_iff uid "-ping", ?_, hno, pingUid_append_ping, hstep, ?_⟩
  · intro h
    obtain ⟨X, rfl⟩ := (HasSuffix_iff uid "-ping").mp h
    have hp : pingUid (X ++ "-ping") = X := pingUid_append_ping X
    have hd : dropLast (X ++ "-ping") 5 = X := dropLast_append X "-ping" 5 rfl
    refine ⟨by rw [hp, hd], ?_, ?_, by rw [hp]⟩
    · rw [hp, String.data_append, List.length_append]
      have h5 : "-ping".data.length = 5 := rfl
      rw [h5, Nat.add_sub_cancel, List.take_left]
    · rw [hp, String.length_append]
      rfl
  · intro h x now app msg hty hu
    have := hstep x now app msg hty hu
    rw [hno h] at this
    exact this

/-- C17 at a concrete uid: "A-ping" ends with "-ping" and its canonical uid is
"A"; "Aping" does not and stays. -/
theorem C17_ping_suffix_rule_witness : pingUid "A-ping" = "A" ∧ pingUid "Aping" = "Aping" :=
  ⟨((C17_ping_suffix_rule "A-ping").2.1 (by decide)).1.trans (by decide),
   (C17_ping_suffix_rule "Aping").2.2.1 (by decide)⟩

/-! ### Pings and routing -/

/-- The handler registry after a ping, entry by entry: the handle under the
canonical uid gets the pong, every other handle the ping. -/
theorem step_ping_handlers_map (x : Ext) (now : Time) (app : App) (msg : Msg)
    (hwf : SyncMap.WF app.handlers) (hty : msg.GetType = "t-x-c-t") :
    (app.EventProcessorStep x now msg).handlers
      = app.handlers.map (fun kh =>
          (kh.1, { kh.2 with
                   outbox := kh.2.outbox ++
                     [if kh.1 = pingUid msg.GetUid then x.MakePong now
                      else msg.TakMessage] })) := by
  rw [step_ping_handlers x now app msg hty, SendToAllOther_handlers,
    SendTo_handlers ⟨app.handlers, []⟩ _ _ hwf, List.map_map]
  apply List.map_congr_left
  rintro ⟨k, h⟩ -
  by_cases hk : k = pingUid msg.GetUid <;> simp [broadcastEntry, ClientHandler.AddMsg, hk]

/-- C18. Pings bypass addressed routing: processing a ping (type "t-x-c-t")
enqueues the original ping exactly once on every registered handle whose key is
not the canonical uid, and on the handle under the canonical uid the pong
only; the outcome does not depend on the destination callsigns the ping
carries, and the step is SendTo followed by SendToAllOther, never route. -/
theorem C18_ping_bypasses_route (x : Ext) (now : Time) (app : App) (msg : Msg)
    (hwf : SyncMap.WF app.handlers) (hty : msg.GetType = "t-x-c-t") :
    (app.EventProcessorStep x now msg).handlers
        = app.handlers.map (fun kh =>
            (kh.1, { kh.2 with
                     outbox := kh.2.outbox ++
                       [if kh.1 = pingUid msg.GetUid then x.MakePong now
                        else msg.TakMessage] }))
    ∧ (∀ key h, SyncMap.Load app.handlers key = some h → key ≠ pingUid msg.GetUid →
        SyncMap.Load (app.EventProcessorStep x now msg).handlers key
          = some { h with outbox := h.outbox ++ [msg.TakMessage] })
    ∧ (∀ h, SyncMap.Load app.handlers (pingUid msg.GetUid) = some h →
        SyncMap.Load (app.EventProcessorStep x now msg).handlers (pingUid msg.GetUid)
          = some { h with outbox := h.outbox ++ [x.MakePong now] })
    ∧ (∀ d : Detail,
        app.EventProcessorStep x now { msg with Detail := d }
          = app.EventProcessorStep x now msg)
    ∧ app.EventProcessorStep x now msg
        = (App.SendTo
            (match app.GetContact (pingUid msg.GetUid) with
             | some c =>
               { app with
                 units := SyncMap.Store app.units (pingUid msg.GetUid)
                   (Entity.contact (c.SetLastSeenNow now none)) }
             | none => app)
            (pingUid msg.GetUid) (x.MakePong now)).SendToAllOther msg.TakMessage
              (pingUid msg.GetUid) := by
  have hmap := step_ping_handlers_map x now app msg hwf hty
  have hload : ∀ key, SyncMap.Load (app.EventProcessorStep x now msg).handlers key
      = (SyncMap.Load app.handlers key).map (fun h =>
          { h with outbox := h.outbox ++
              [if key = pingUid msg.GetUid then x.MakePong now else msg.TakMessage] }) := by
    intro key
    rw [hmap]
    exact SyncMap.Load_map (fun k (h : ClientHandler) =>
      { h with outbox := h.outbox ++
          [if k = pingUid msg.GetUid then x.MakePong now else msg.TakMessage] }) _ _
  refine ⟨hmap, ?_, ?_, ?_, step_ping_eq x now app msg hty⟩
  · intro key h hl hne
    rw [hload key, hl]
    simp [hne]
  · intro h hl
    rw [hload _, hl]
    simp
  · intro d
    have hty1 : Msg.GetType { msg with Detail := d } = "t-x-c-t" := hty
    rw [step_ping_eq x now app _ hty1, step_ping_eq x now app msg hty]
    rfl

/-- C18 at a concrete registry: the ping of "A-ping" addressed to "Bravo" still
reaches "B" and "C" once each, and "A" gets the pong only. -/
theorem C18_ping_bypasses_route_witness :
    (App.EventProcessorStep sampleExt 7 ⟨sampleHandlers, sampleUnits⟩
        (sampleMsg "t-x-c-t" "A-ping" ["Bravo"] false)).handlers
      = [("A", ⟨"Alpha", [⟨some (sampleEvent "t-x-c-t-r" "takPong")⟩]⟩),
         ("B", ⟨"Bravo", [⟨some (sampleEvent "t-x-c-t" "A-ping")⟩]⟩),
         ("C", ⟨"Alpha", [⟨some (sampleEvent "t-x-c-t" "A-ping")⟩]⟩)] :=
  (C18_ping_bypasses_route sampleExt 7 ⟨sampleHandlers, sampleUnits⟩
    (sampleMsg "t-x-c-t" "A-ping" ["Bravo"] false) (by decide) (by decide)).1.trans
    (by decide)

/-! ### Reaper idempotence -/

theorem demote_demote (now : Time) (e : Entity) : demote now (demote now e) = demote now e := by
  cases e with
  | unit u => rfl
  | contact c =>
    by_cases h : (c.online && decide (c.lastSeen + lastSeenOfflineTimeout < now)) = true
    · simp [demote, h]
    · simp [demote, h]

theorem cleanOldUnits_WF (app : App) (now : Time) (hwf : SyncMap.WF app.units) :
    SyncMap.WF (app.cleanOldUnits now).units := by
  unfold SyncMap.WF at *
  rw [cleanOldUnits_units app now hwf]
  have hk : SyncMap.keys ((app.units.filter (keptEntry now)).map
      (fun kv => (kv.1, demote now kv.2)))
      = SyncMap.keys (app.units.filter (keptEntry now)) := by
    simp only [SyncMap.keys, List.map_map]
    rfl
  rw [hk]
  exact List.Nodup.sublist ((List.filter_sublist _).map Prod.fst) hwf

/-- C19. Reaper idempotence at a fixed time: running cleanOldUnits twice at the
same time now gives the same application state (same entries, same online
states, same handlers) as running it once. -/
theorem C19_reaper_idempotent (app : App) (now : Time) (hwf : SyncMap.WF app.units) :
    (app.cleanOldUnits now).cleanOldUnits now = app.cleanOldUnits now := by
  apply App.eq_of
  · rfl
  · rw [cleanOldUnits_units (app.cleanOldUnits now) now (cleanOldUnits_WF app now hwf),
      cleanOldUnits_units app now hwf]
    have hkeep : ((app.units.filter (keptEntry now)).map
        (fun kv => (kv.1, demote now kv.2))).filter (keptEntry now)
        = (app.units.filter (keptEntry now)).map (fun kv => (kv.1, demote now kv.2)) := by
      rw [List.filter_eq_self]
      intro kv hkv
      obtain ⟨kv0, hmem, rfl⟩ := List.mem_map.mp hkv
      have h0 : keptEntry now kv0 = true := (List.mem_filter.mp hmem).2
      simpa [keptEntry, demote_IsOld] using h0
    rw [hkeep, List.map_map]
    apply List.map_congr_left
    intro kv _
    simp [demote_demote]

/-- C19 at a concrete registry: a second tick at 200 s changes nothing. -/
theorem C19_reaper_idempotent_witness :
    App.cleanOldUnits (App.cleanOldUnits ⟨sampleHandlers, sampleUnits⟩ (200 * Second))
        (200 * Second)
      = App.cleanOldUnits ⟨sampleHandlers, sampleUnits⟩ (200 * Second) :=
  C19_reaper_idempotent ⟨sampleHandlers, sampleUnits⟩ (200 * Second) (by decide)

/-! ### Geo utility -/

theorem Atan2_zero_zero : Atan2 0 0 = 0 := by simp [Atan2]

theorem Atan2_zero_one : Atan2 0 1 = 0 := by simp [Atan2]

/-- C13. Geo, identical points (over the real numbers, Atan2(0, 0) = 0): for
every latitude and longitude DistBea(lat, lon, lat, lon) is distance 0 and
bearing 0; in particular DistBea(0, 0, 0, 0) = (0, 0). -/
theorem C13_geo_identical_points (lat lon : ℝ) :
    DistBea lat lon lat lon = (0, 0) ∧ DistBea 0 0 0 0 = (0, 0) := by
  have h : ∀ lat lon : ℝ, DistBea lat lon lat lon = (0, 0) := by
    intro lat lon
    have hx : Real.cos (lat * (Real.pi / 180)) * Real.sin (lat * (Real.pi / 180))
        - Real.sin (lat * (Real.pi / 180)) * Real.cos (lat * (Real.pi / 180)) = 0 := by ring
    simp [DistBea, Atan2_zero_zero, Atan2_zero_one, hx]
  exact ⟨h lat lon, h 0 0⟩

theorem Atan2_one_zero : Atan2 1 0 = Real.pi / 2 := by simp [Atan2]

theorem Atan2_self_pos (r : ℝ) (hr : 0 < r) : Atan2 r r = Real.pi / 4 := by
  have hne : r ≠ 0 := ne_of_gt hr
  have hnl : ¬ r < 0 := not_lt.mpr hr.le
  simp [Atan2, hne, hnl, div_self hne]

/-- C14. Geo, quarter circumference (over the real numbers): DistBea(0, 0, 0, 90)
has bearing 90 degrees and distance 6371000 * pi / 2 metres, which is within one
metre of 10,007,543 m. -/
theorem C14_geo_quarter :
    (DistBea 0 0 0 90).2 = 90
    ∧ (DistBea 0 0 0 90).1 = 6371000 * Real.pi / 2
    ∧ |(DistBea 0 0 0 90).1 - 10007543| < 1 := by
  have hpi : Real.pi ≠ 0 := Real.pi_ne_zero
  have h90 : (90 : ℝ) * (Real.pi / 180) = Real.pi / 2 := by ring
  have h45 : Real.pi / 2 / 2 = Real.pi / 4 := by ring
  have hs : Real.sin (Real.pi / 4) * Real.sin (Real.pi / 4) = 1 / 2 := by
    rw [Real.sin_pi_div_four]
    have : Real.sqrt 2 * Real.sqrt 2 = 2 := Real.mul_self_sqrt (by norm_num)
    nlinarith
  have hhalf : (1 : ℝ) - 1 / 2 = 1 / 2 := by norm_num
  have hpos : 0 < Real.sqrt (1 / 2) := Real.sqrt_pos.mpr (by norm_num)
  have hd : (DistBea 0 0 0 90).1 = 6371000 * Real.pi / 2 := by
    simp only [DistBea, sub_zero, zero_mul, h90, h45, Real.sin_zero, Real.cos_zero,
      zero_div, mul_zero, zero_add, one_mul, hs, hhalf, Atan2_self_pos _ hpos]
    ring
  have hb : (DistBea 0 0 0 90).2 = 90 := by
    simp only [DistBea, sub_zero, zero_mul, h90, Real.sin_zero, Real.cos_zero,
      Real.sin_pi_div_two, Real.cos_pi_div_two, mul_zero, mul_one, sub_self, Atan2_one_zero]
    have h1 : Real.pi / 2 * 180 / Real.pi = 90 := by field_simp; ring
    rw [h1]
    norm_num
  refine ⟨hb, hd, ?_⟩
  rw [hd, abs_lt]
  have h1 := Real.pi_gt_d20
  have h2 := Real.pi_lt_d20
  constructor <;> norm_num at h1 h2 ⊢ <;> linarith

theorem Atan2_range (y x : ℝ) : -Real.pi < Atan2 y x ∧ Atan2 y x ≤ Real.pi := by
  have hpi := Real.pi_pos
  have h1 := Real.neg_pi_div_two_lt_arctan (y / x)
  have h2 := Real.arctan_lt_pi_div_two (y / x)
  unfold Atan2
  split_ifs <;> constructor <;> linarith

theorem Atan2_quadrant (y x : ℝ) (hy : 0 ≤ y) (hx : 0 ≤ x) :
    0 ≤ Atan2 y x ∧ Atan2 y x ≤ Real.pi / 2 := by
  have hpi := Real.pi_pos
  have h2 := Real.arctan_lt_pi_div_two (y / x)
  have h0 : 0 ≤ Real.arctan (y / x) := by
    rw [← Real.arctan_zero]
    exact Real.arctan_strictMono.monotone (div_nonneg hy hx)
  unfold Atan2
  split_ifs with hx0 hy0 hyp hxn hq
  · constructor <;> linarith
  · constructor <;> linarith
  · exact absurd (lt_of_le_of_ne hy (Ne.symm hy0)) hyp
  · exact absurd hxn (not_lt.mpr hx)
  · exact absurd hxn (not_lt.mpr hx)
  · constructor <;> linarith

/-- The haversine term lies between 0 and 1, whatever the angles. -/
theorem haversine_bounds (f1 f2 dl : ℝ) :
    0 ≤ Real.sin ((f2 - f1) / 2) * Real.sin ((f2 - f1) / 2)
        + Real.cos f1 * Real.cos f2 * Real.sin (dl / 2) * Real.sin (dl / 2)
    ∧ Real.sin ((f2 - f1) / 2) * Real.sin ((f2 - f1) / 2)
        + Real.cos f1 * Real.cos f2 * Real.sin (dl / 2) * Real.sin (dl / 2) ≤ 1 := by
  set s := Real.sin ((f2 - f1) / 2) with hs
  set t := Real.sin (dl / 2) with ht
  set u := Real.cos (f1 + f2) with hu
  have hcc : Real.cos f1 * Real.cos f2 = (1 - 2 * (s * s) + u) / 2 := by
    have h1 : Real.cos (f2 - f1) = 1 - 2 * (s * s) := by
      have h2 : f2 - f1 = 2 * ((f2 - f1) / 2) := by ring
      have h3 := Real.cos_two_mul ((f2 - f1) / 2)
      have h4 := Real.sin_sq_add_cos_sq ((f2 - f1) / 2)
      rw [← h2] at h3
      rw [h3, hs]
      nlinarith
    have h5 := Real.cos_sub f2 f1
    have h6 := Real.cos_add f1 f2
    rw [hu, ← h1, h5, h6]
    ring
  have hs1 : s * s ≤ 1 := by
    have := Real.sin_sq_le_one ((f2 - f1) / 2)
    rw [hs]; nlinarith
  have ht1 : t * t ≤ 1 := by
    have := Real.sin_sq_le_one (dl / 2)
    rw [ht]; nlinarith
  have hs0 : 0 ≤ s * s := mul_self_nonneg s
  have ht0 : 0 ≤ t * t := mul_self_nonneg t
  have hu1 : u ≤ 1 := Real.cos_le_one _
  have hu0 : -1 ≤ u := Real.neg_one_le_cos _
  have hexp : s * s + Real.cos f1 * Real.cos f2 * t * t
      = s * s + (1 - 2 * (s * s) + u) / 2 * (t * t) := by
    rw [hcc]; ring
  rw [hexp]
  constructor
  · have h1 : s * s + (1 - 2 * (s * s) + u) / 2 * (t * t)
        = s * s * (1 - t * t) + t * t * ((1 + u) / 2) := by ring
    rw [h1]
    have ha : 0 ≤ s * s * (1 - t * t) := mul_nonneg hs0 (by linarith)
    have hb : 0 ≤ t * t * ((1 + u) / 2) := mul_nonneg ht0 (by linarith)
    linarith
  · have h1 : 1 - (s * s + (1 - 2 * (s * s) + u) / 2 * (t * t))
        = (1 - s * s) * (1 - t * t) + t * t * ((1 - u) / 2) := by ring
    have ha : 0 ≤ (1 - s * s) * (1 - t * t) := mul_nonneg (by linarith) (by linarith)
    have hb : 0 ≤ t * t * ((1 - u) / 2) := mul_nonneg ht0 (by linarith)
    linarith

theorem haversineTerm_bounds (lat1 lon1 lat2 lon2 : ℝ) :
    0 ≤ haversineTerm lat1 lon1 lat2 lon2 ∧ haversineTerm lat1 lon1 lat2 lon2 ≤ 1 := by
  have h := haversine_bounds (lat1 * (Real.pi / 180)) (lat2 * (Real.pi / 180))
    ((lon2 - lon1) * (Real.pi / 180))
  have e : lat2 * (Real.pi / 180) - lat1 * (Real.pi / 180)
      = (lat2 - lat1) * (Real.pi / 180) := by ring
  rw [e] at h
  exact h

theorem DistBea_dist (lat1 lon1 lat2 lon2 : ℝ) :
    (DistBea lat1 lon1 lat2 lon2).1
      = 6371000 * (2 * Atan2 (Real.sqrt (haversineTerm lat1 lon1 lat2 lon2))
          (Real.sqrt (1 - haversineTerm lat1 lon1 lat2 lon2))) := rfl

theorem bearing_normalized (q : ℝ) (h1 : -Real.pi < q) (h2 : q ≤ Real.pi) :
    0 ≤ (if q * 180 / Real.pi < 0 then q * 180 / Real.pi + 360 else q * 180 / Real.pi)
    ∧ (if q * 180 / Real.pi < 0 then q * 180 / Real.pi + 360 else q * 180 / Real.pi) < 360 := by
  have hpi := Real.pi_pos
  have hlo : -180 < q * 180 / Real.pi := by
    rw [lt_div_iff₀ hpi]
    nlinarith
  have hhi : q * 180 / Real.pi ≤ 180 := by
    rw [div_le_iff₀ hpi]
    nlinarith
  split_ifs with h
  · constructor <;> linarith
  · exact ⟨not_lt.mp h, by linarith⟩

/-- The bounds the formula of DistBea aims at, in exact real arithmetic (no
rounding): the bearing lies in [0, 360), the distance is non-negative and at
most 6371000 * pi metres, and the haversine term whose square roots are taken
lies in [0, 1].  The float64 program does not keep these bounds at every input:
see the section on float64 rounding below. -/
theorem DistBea_exact_ranges (lat1 lon1 lat2 lon2 : ℝ) :
    0 ≤ (DistBea lat1 lon1 lat2 lon2).2
    ∧ (DistBea lat1 lon1 lat2 lon2).2 < 360
    ∧ 0 ≤ (DistBea lat1 lon1 lat2 lon2).1
    ∧ (DistBea lat1 lon1 lat2 lon2).1 ≤ 6371000 * Real.pi
    ∧ 0 ≤ haversineTerm lat1 lon1 lat2 lon2
    ∧ 0 ≤ 1 - haversineTerm lat1 lon1 lat2 lon2 := by
  have hpi := Real.pi_pos
  have hb := bearing_normalized
    (Atan2 (Real.sin ((lon2 - lon1) * (Real.pi / 180)) * Real.cos (lat2 * (Real.pi / 180)))
      (Real.cos (lat1 * (Real.pi / 180)) * Real.sin (lat2 * (Real.pi / 180))
        - Real.sin (lat1 * (Real.pi / 180)) * Real.cos (lat2 * (Real.pi / 180))
          * Real.cos ((lon2 - lon1) * (Real.pi / 180))))
    (Atan2_range _ _).1 (Atan2_range _ _).2
  have hq := Atan2_quadrant (Real.sqrt (haversineTerm lat1 lon1 lat2 lon2))
    (Real.sqrt (1 - haversineTerm lat1 lon1 lat2 lon2)) (Real.sqrt_nonneg _) (Real.sqrt_nonneg _)
  have ha := haversineTerm_bounds lat1 lon1 lat2 lon2
  refine ⟨hb.1, hb.2, ?_, ?_, ha.1, by linarith [ha.2]⟩
  · rw [DistBea_dist]
    nlinarith [hq.1]
  · rw [DistBea_dist]
    nlinarith [hq.2]

/-! ### Geo utility: float64 rounding in the bearing correction -/

theorem DistBea_bearing (lat1 lon1 lat2 lon2 : ℝ) :
    (DistBea lat1 lon1 lat2 lon2).2
      = if rawBearing lat1 lon1 lat2 lon2 < 0 then rawBearing lat1 lon1 lat2 lon2 + 360
        else rawBearing lat1 lon1 lat2 lon2 := rfl

/-- A negative raw bearing closer to 0 than half the float64 spacing at 360 is
corrected to exactly 360. -/
theorem normalizeBearing64_tiny (bea : ℝ) (hlo : -(1 / 2 ^ 45) < bea) (hneg : bea < 0) :
    normalizeBearing64 bea = 360 := by
  unfold normalizeBearing64 addFloat64Near360
  rw [if_pos hneg]
  have hsplit : (bea + 360) * 2 ^ 44 = bea * 2 ^ 44 + ((360 * 2 ^ 44 : ℤ) : ℝ) := by
    push_cast
    ring
  have hzero : round (bea * 2 ^ 44) = 0 := by
    rw [round_eq_zero_iff]
    constructor
    · have : -(1 / 2 ^ 45) * 2 ^ 44 < bea * (2 : ℝ) ^ 44 :=
        mul_lt_mul_of_pos_right hlo (by positivity)
      have e : -(1 / 2 ^ 45) * (2 : ℝ) ^ 44 = -(1 / 2) := by norm_num
      linarith
    · have : bea * (2 : ℝ) ^ 44 < 0 := mul_neg_of_neg_of_pos hneg (by positivity)
      linarith
  rw [hsplit, round_add_int, hzero, zero_add]
  push_cast
  field_simp
  norm_num

/-- The raw bearing at the input (0, 0, 1, -1e-18): negative, and above
-9e-17. -/
theorem rawBearing_failing_input :
    -(9 / 10 ^ 17) ≤ rawBearing 0 0 1 (-(1 / 10 ^ 18))
    ∧ rawBearing 0 0 1 (-(1 / 10 ^ 18)) < 0 := by
  have hpi := Real.pi_pos
  have hpi4 := Real.pi_lt_four
  set r : ℝ := Real.pi / 180 with hr
  set ε : ℝ := 1 / 10 ^ 18 * r with hε
  have hr0 : 0 < r := by positivity
  have hrle : r ≤ Real.pi / 2 := by rw [hr]; linarith
  have hrlt : r < Real.pi / 2 := by rw [hr]; linarith
  have hε0 : 0 < ε := by positivity
  have hεpi : ε < Real.pi := by
    rw [hε, hr]
    have : (1 : ℝ) / 10 ^ 18 * (Real.pi / 180) ≤ 1 * (Real.pi / 180) := by
      apply mul_le_mul_of_nonneg_right _ (by positivity)
      norm_num
    linarith
  have hx : 0 < Real.sin r := Real.sin_pos_of_pos_of_lt_pi hr0 (by linarith)
  have hxlo : 1 / 90 ≤ Real.sin r := by
    have h := Real.mul_le_sin hr0.le hrle
    have e : 2 / Real.pi * r = 1 / 90 := by
      rw [hr]; field_simp; ring
    linarith
  have hcos0 : 0 < Real.cos r :=
    Real.cos_pos_of_mem_Ioo ⟨by linarith, hrlt⟩
  have hcos1 : Real.cos r ≤ 1 := Real.cos_le_one r
  have hsε0 : 0 < Real.sin ε := Real.sin_pos_of_pos_of_lt_pi hε0 hεpi
  have hsε : Real.sin ε ≤ ε := (Real.sin_lt hε0).le
  -- the two arguments of Atan2
  have hy : Real.sin ((-(1 / 10 ^ 18) - 0) * r) * Real.cos (1 * r)
      = -(Real.sin ε * Real.cos r) := by
    have e : (-(1 / 10 ^ 18) - 0) * r = -ε := by rw [hε]; ring
    rw [e, Real.sin_neg, one_mul]
    ring
  have hxx : Real.cos (0 * r) * Real.sin (1 * r)
      - Real.sin (0 * r) * Real.cos (1 * r) * Real.cos ((-(1 / 10 ^ 18) - 0) * r)
      = Real.sin r := by
    simp
  set u : ℝ := Real.sin ε * Real.cos r / Real.sin r with hu
  have hu0 : 0 < u := by positivity
  have hule : u ≤ 1 / 10 ^ 18 * (Real.pi / 2) := by
    rw [hu, div_le_iff₀ hx]
    have h1 : Real.sin ε * Real.cos r ≤ ε * 1 :=
      mul_le_mul hsε hcos1 hcos0.le hε0.le
    have h2 : ε * 1 = 1 / 10 ^ 18 * (Real.pi / 2) * (1 / 90) := by
      rw [hε, hr]; ring
    have h3 : 1 / 10 ^ 18 * (Real.pi / 2) * (1 / 90)
        ≤ 1 / 10 ^ 18 * (Real.pi / 2) * Real.sin r :=
      mul_le_mul_of_nonneg_left hxlo (by positivity)
    linarith
  have harc0 : 0 < Real.arctan u := by
    rw [← Real.arctan_zero]
    exact Real.arctan_strictMono hu0
  have harcle : Real.arctan u ≤ u := by
    have h1 := Real.le_tan harc0.le (Real.arctan_lt_pi_div_two u)
    rwa [Real.tan_arctan] at h1
  have hraw : rawBearing 0 0 1 (-(1 / 10 ^ 18)) = -(Real.arctan u) * 180 / Real.pi := by
    unfold rawBearing
    rw [hy, hxx]
    have hne : Real.sin r ≠ 0 := ne_of_gt hx
    have hnl : ¬ Real.sin r < 0 := not_lt.mpr hx.le
    have hdiv : -(Real.sin ε * Real.cos r) / Real.sin r = -u := by
      rw [hu]; ring
    simp only [Atan2, hne, hnl, if_false, hdiv, Real.arctan_neg]
  rw [hraw]
  constructor
  · rw [le_div_iff₀ hpi]
    have : Real.arctan u * 180 ≤ 1 / 10 ^ 18 * (Real.pi / 2) * 180 := by
      have := le_trans harcle hule
      linarith
    have e : (1 : ℝ) / 10 ^ 18 * (Real.pi / 2) * 180 = 9 / 10 ^ 17 * Real.pi := by
      ring
    linarith
  · apply div_neg_of_neg_of_pos _ hpi
    linarith

/-- C15 (code defect). At the input (0, 0, 1, -1e-18) the raw bearing of DistBea
is negative and closer to 0 than 2^-45, half the float64 spacing at 360, so the
correction bea += 360, done in float64, gives exactly 360: the bearing the
program returns there is not below 360.  The raw bearing is taken exactly here;
its float64 value differs from it by a relative error of some 1e-16 and lies in
the same window. -/
theorem C15_bearing_reaches_360 :
    -(1 / 2 ^ 45) < rawBearing 0 0 1 (-(1 / 10 ^ 18))
    ∧ rawBearing 0 0 1 (-(1 / 10 ^ 18)) < 0
    ∧ normalizeBearing64 (rawBearing 0 0 1 (-(1 / 10 ^ 18))) = 360
    ∧ ¬ normalizeBearing64 (rawBearing 0 0 1 (-(1 / 10 ^ 18))) < 360 := by
  obtain ⟨hlo, hneg⟩ := rawBearing_failing_input
  have hwin : -(1 / 2 ^ 45) < rawBearing 0 0 1 (-(1 / 10 ^ 18)) := by
    have : -(1 / (2 : ℝ) ^ 45) < -(9 / 10 ^ 17) := by norm_num
    linarith
  have h360 := normalizeBearing64_tiny _ hwin hneg
  refine ⟨hwin, hneg, h360, ?_⟩
  rw [h360]
  exact lt_irrefl _

/-! ### Wire framing -/

set_option maxRecDepth 20000 in
theorem byte_or_high (b : Nat) (hb : b < 256) :
    ¬ (b ||| 0x80) < 0x80 ∧ (b ||| 0x80) &&& 0x7f = b % 128 := by
  revert b
  decide

theorem or_shiftLeft_of_lt (x m s : Nat) (hx : x < 2 ^ s) (hfit : m * 2 ^ s < 2 ^ 64) :
    x ||| ((m <<< s) % 2 ^ 64) = x + m * 2 ^ s := by
  rw [Nat.shiftLeft_eq, Nat.mod_eq_of_lt hfit, Nat.or_comm, Nat.mul_comm m,
    ← Nat.mul_add_lt_is_or hx, Nat.add_comm]

theorem uvarintLoop_last (i x s b : Nat) (rest : List Nat) (hi : i < 10) (hb : b < 128)
    (hov : i = 9 → b ≤ 1) (hx : x < 2 ^ s) (hfit : b * 2 ^ s < 2 ^ 64) :
    uvarintLoop i x s (b :: rest) = (x + b * 2 ^ s, (i : Int) + 1) := by
  have h1 : ¬ i = MaxVarintLen64 := by unfold MaxVarintLen64; omega
  have h2 : ¬ (i = MaxVarintLen64 - 1 ∧ b > 1) := by
    unfold MaxVarintLen64
    rintro ⟨h, hgt⟩
    have := hov h
    omega
  simp only [uvarintLoop, h1, if_false, hb, if_true, h2]
  rw [or_shiftLeft_of_lt x b s hx hfit]

theorem uvarintLoop_cont (i x s n : Nat) (rest : List Nat) (hi : i < 10)
    (hx : x < 2 ^ s) (hfit : (n % 128) * 2 ^ s < 2 ^ 64) :
    uvarintLoop i x s (((n % 256) ||| 0x80) :: rest)
      = uvarintLoop (i + 1) (x + (n % 128) * 2 ^ s) (s + 7) rest := by
  have h1 : ¬ i = MaxVarintLen64 := by unfold MaxVarintLen64; omega
  obtain ⟨hhigh, hlow⟩ := byte_or_high (n % 256) (Nat.mod_lt _ (by norm_num))
  have hmod : n % 256 % 128 = n % 128 := by omega
  simp only [uvarintLoop, h1, if_false, hhigh, hlow, hmod]
  rw [or_shiftLeft_of_lt x (n % 128) s hx hfit]

/-- Reading back what the writer wrote: the value and the number of bytes. -/
theorem uvarintLoop_putUvarintLoop (fuel : Nat) :
    ∀ (i x n : Nat) (rest : List Nat), i + fuel = 9 → x < 2 ^ (7 * i) →
      n < 2 ^ (64 - 7 * i) →
      uvarintLoop i x (7 * i) (putUvarintLoop fuel n ++ rest)
        = (x + n * 2 ^ (7 * i), ((i + (putUvarintLoop fuel n).length : Nat) : Int)) := by
  induction fuel with
  | zero =>
    intro i x n rest hi hx hn
    have hi9 : i = 9 := by omega
    subst hi9
    have hn2 : n < 2 := by simpa using hn
    have hmod : n % 256 = n := by omega
    simp only [putUvarintLoop, hmod, List.singleton_append, List.length_singleton]
    rw [uvarintLoop_last 9 x (7 * 9) n rest (by norm_num) (by omega) (fun _ => by omega) hx
      (by norm_num; omega)]
    simp
  | succ fuel ih =>
    intro i x n rest hi hx hn
    have hi8 : i ≤ 8 := by omega
    by_cases hge : n ≥ 0x80
    · have hput : putUvarintLoop (fuel + 1) n
          = ((n % 256) ||| 0x80) :: putUvarintLoop fuel (n >>> 7) := by
        simp [putUvarintLoop, hge]
      have hshift : n >>> 7 = n / 128 := by
        rw [Nat.shiftRight_eq_div_pow]
      rw [hput, hshift, List.cons_append, List.length_cons]
      have harith : (n % 128) * 2 ^ (7 * i) < 2 ^ 64
          ∧ x + (n % 128) * 2 ^ (7 * i) < 2 ^ (7 * (i + 1))
          ∧ n / 128 < 2 ^ (64 - 7 * (i + 1))
          ∧ x + (n % 128) * 2 ^ (7 * i) + n / 128 * 2 ^ (7 * (i + 1)) = x + n * 2 ^ (7 * i) := by
        interval_cases i <;> norm_num at hx hn ⊢ <;> omega
      obtain ⟨hfit, hx1, hn1, hsum⟩ := harith
      rw [uvarintLoop_cont i x (7 * i) n _ (by omega) hx hfit]
      have hs : 7 * i + 7 = 7 * (i + 1) := by ring
      rw [hs, ih (i + 1) _ (n / 128) rest (by omega) hx1 hn1, hsum]
      congr 2
      omega
    · have hlt : n < 128 := by
        simp only [ge_iff_le, not_le] at hge
        exact hge
      have hmod : n % 256 = n := by omega
      have hput : putUvarintLoop (fuel + 1) n = [n] := by
        simp [putUvarintLoop, hge, hmod]
      rw [hput, List.singleton_append, List.length_singleton]
      have hfit : n * 2 ^ (7 * i) < 2 ^ 64 := by
        interval_cases i <;> norm_num at hx hn ⊢ <;> omega
      rw [uvarintLoop_last i x (7 * i) n rest (by omega) hlt (fun h => by omega) hx hfit]
      simp

theorem putUvarintLoop_length (fuel n : Nat) :
    1 ≤ (putUvarintLoop fuel n).length ∧ (putUvarintLoop fuel n).length ≤ fuel + 1 := by
  induction fuel generalizing n with
  | zero => simp [putUvarintLoop]
  | succ fuel ih =>
    unfold putUvarintLoop
    split
    · have := ih (n >>> 7)
      simp only [List.length_cons]
      omega
    · simp

/-- Varint round trip: for a uint64 value n, Uvarint reads n back from what
PutUvarint wrote, whatever follows, and reports the number of bytes written. -/
theorem Uvarint_PutUvarint (n : Nat) (hn : n < 2 ^ 64) (rest : List Nat) :
    Uvarint (PutUvarint n ++ rest) = (n, ((PutUvarint n).length : Int))
    ∧ 1 ≤ (PutUvarint n).length ∧ (PutUvarint n).length ≤ MaxVarintLen64 := by
  unfold Uvarint PutUvarint
  rw [Nat.mod_eq_of_lt hn]
  have h := uvarintLoop_putUvarintLoop (MaxVarintLen64 - 1) 0 0 n rest (by decide)
    (by norm_num) (by simpa using hn)
  have hl := putUvarintLoop_length (MaxVarintLen64 - 1) n
  refine ⟨?_, hl.1, ?_⟩
  · simpa using h
  · have h10 : MaxVarintLen64 - 1 + 1 = MaxVarintLen64 := by decide
    omega

/-- The bound on the continuation bytes is never hit: with more rounds allowed
the writer writes the same bytes. -/
theorem putUvarintLoop_fuel (fuel : Nat) :
    ∀ (n k : Nat), n < 2 ^ (7 * (fuel + 1)) →
      putUvarintLoop (fuel + k) n = putUvarintLoop fuel n := by
  induction fuel with
  | zero =>
    intro n k hn
    have hlt : ¬ n ≥ 0x80 := by
      have : n < 128 := by simpa using hn
      omega
    cases k with
    | zero => rfl
    | succ k => simp [putUvarintLoop, hlt]
  | succ fuel ih =>
    intro n k hn
    have hk : fuel + 1 + k = (fuel + k) + 1 := by omega
    rw [hk]
    unfold putUvarintLoop
    have hdiv : n >>> 7 < 2 ^ (7 * (fuel + 1)) := by
      rw [Nat.shiftRight_eq_div_pow]
      apply Nat.div_lt_of_lt_mul
      have e : 2 ^ 7 * 2 ^ (7 * (fuel + 1)) = 2 ^ (7 * (fuel + 1 + 1)) := by
        rw [← Nat.pow_add]
        congr 1
        ring
      rw [e]
      exact hn
    rw [ih (n >>> 7) k hdiv]

/-- C16. Wire round trip: for an event whose protobuf payload deserializes back
to it, encoding the event as a frame (marker byte 0xbf, varint-encoded payload
length, payload bytes) and decoding that frame (check the marker, read the
varint length, deserialize the payload right after the length prefix) gives the
event back, equal as a structure and so in every numeric field; the varint
reader reads the payload length back and stops exactly where the payload
starts, and the writer never needs more than its 10 bytes. -/
theorem C16_wire_round_trip (marshal : TakMessage → List Nat)
    (unmarshal : List Nat → Option TakMessage) (evt : TakMessage)
    (hproto : unmarshal (marshal evt) = some evt)
    (hlen : (marshal evt).length < 2 ^ 64) :
    decodeFrame unmarshal (encodeFrame marshal evt) = some evt
    ∧ (encodeFrame marshal evt).head? = some 0xbf
    ∧ Uvarint (encodeFrame marshal evt).tail
        = ((marshal evt).length, ((PutUvarint (marshal evt).length).length : Int))
    ∧ (encodeFrame marshal evt).tail.drop (PutUvarint (marshal evt).length).length
        = marshal evt
    ∧ (∀ k, putUvarintLoop (MaxVarintLen64 - 1 + k) (marshal evt).length
        = PutUvarint (marshal evt).length)
    ∧ (∀ e1, decodeFrame unmarshal (encodeFrame marshal evt) = some e1 →
        e1.CotEvent = evt.CotEvent) := by
  obtain ⟨hu, h1, -⟩ := Uvarint_PutUvarint (marshal evt).length hlen (marshal evt)
  have hdec : decodeFrame unmarshal (encodeFrame marshal evt) = some evt := by
    unfold decodeFrame encodeFrame
    simp only [if_true, hu]
    have hpos : ¬ (((PutUvarint (marshal evt).length).length : Int) ≤ 0) := by omega
    simp only [hpos, if_false, Int.toNat_ofNat, List.drop_left, lt_self_iff_false,
      List.take_length, hproto]
  refine ⟨hdec, rfl, hu, ?_, ?_, ?_⟩
  · simp [encodeFrame]
  · intro k
    unfold PutUvarint
    rw [Nat.mod_eq_of_lt hlen]
    apply putUvarintLoop_fuel
    have h70 : (2 : Nat) ^ 64 ≤ 2 ^ (7 * (MaxVarintLen64 - 1 + 1)) := by decide
    omega
  · intro e1 he1
    rw [hdec] at he1
    cases he1
    rfl

/-- C16 at a concrete event: a three-byte payload gives the frame
[0xbf, 3, 1, 2, 3], which decodes to the event. -/
theorem C16_wire_round_trip_witness :
    encodeFrame (fun _ => [1, 2, 3]) ⟨some (sampleEvent "a-f-G" "A")⟩ = [0xbf, 3, 1, 2, 3]
    ∧ decodeFrame
        (fun b => if b = [1, 2, 3] then some ⟨some (sampleEvent "a-f-G" "A")⟩ else none)
        (encodeFrame (fun _ => [1, 2, 3]) ⟨some (sampleEvent "a-f-G" "A")⟩)
      = some ⟨some (sampleEvent "a-f-G" "A")⟩ :=
  ⟨by decide,
   (C16_wire_round_trip (fun _ => [1, 2, 3])
      (fun b => if b = [1, 2, 3] then some ⟨some (sampleEvent "a-f-G" "A")⟩ else none)
      ⟨some (sampleEvent "a-f-G" "A")⟩ (by decide) (by decide)).1⟩

end Goatak
